import Mathlib

/-!
# Verification model of the `vdi-rs` crate

A shallow embedding of the two layers of the repository:

* the VDI sparse-block reader (`src/lib.rs`, `src/header.rs`, `src/slice.rs`);
* the ext4 read path (`ext4/src/lib.rs`, `ext4/src/structs.rs`, `ext4/src/util.rs`).

Backing storage (`positioned_io2::ReadAt` over a plain file) is modelled as a
`ByteStore`: a size together with a total byte function.  `read_at` on such a
store returns the bytes available from the requested offset, clipped at the end
of the store; `read_exact_at` succeeds exactly when the whole requested range is
inside the store (matching the loop-until-full behaviour of the Rust helper).

Machine integers are `Nat`; the one place where unsigned wrap-around is
observable in the claims under study (the `rec_len as usize - 8` subtraction in
the directory-record parser) is modelled with an explicit `% 2 ^ 64`.
-/

set_option maxHeartbeats 1000000

set_option maxRecDepth 100000

/-- An immutable byte-addressed backing store: `size` bytes, `byte i` being the
byte at offset `i` (only offsets `< size` are meaningful). -/
structure ByteStore where
  size : Nat
  byte : Nat → Nat

/-- The `count` bytes of the store starting at offset `off` (the byte function
is total, so this is defined for any range; reads are guarded by `size`). -/
def ByteStore.bytes (s : ByteStore) (off : Nat) : Nat → List Nat
  | 0 => []
  | n + 1 => s.byte off :: s.bytes (off + 1) n

/-- Model of `ReadAt::read_at` on a plain backing file: fills the buffer with
the bytes available from `off`, returning fewer than `len` bytes (possibly
none) when the store ends first. -/
def ByteStore.readAt (s : ByteStore) (off len : Nat) : List Nat :=
  s.bytes off (min len (s.size - off))

/-- Model of `ReadAt::read_exact_at`: succeeds iff the whole requested range is
inside the store (a zero-length request always succeeds). -/
def ByteStore.readExactAt (s : ByteStore) (off len : Nat) : Option (List Nat) :=
  if len = 0 ∨ off + len ≤ s.size then some (s.bytes off len) else none

/-- Little-endian `u16` at offset `off` of a store. -/
def ByteStore.le16 (s : ByteStore) (off : Nat) : Nat :=
  s.byte off + 256 * s.byte (off + 1)

/-- Little-endian `u32` at offset `off` of a store. -/
def ByteStore.le32 (s : ByteStore) (off : Nat) : Nat :=
  s.byte off + 256 * s.byte (off + 1) + 65536 * s.byte (off + 2) +
    16777216 * s.byte (off + 3)

/-- Little-endian `u16` at offset `off` of a byte list (0 past the end). -/
def listLE16 (l : List Nat) (off : Nat) : Nat :=
  l.getD off 0 + 256 * l.getD (off + 1) 0

/-- Little-endian `u32` at offset `off` of a byte list (0 past the end). -/
def listLE32 (l : List Nat) (off : Nat) : Nat :=
  l.getD off 0 + 256 * l.getD (off + 1) 0 + 65536 * l.getD (off + 2) 0 +
    16777216 * l.getD (off + 3) 0

/-! ## VDI layer (`src/header.rs`, `src/lib.rs`) -/

/-- The fields of `VdiHeader` (`src/header.rs`) that the reader consumes.
Unused geometry/uuid fields are omitted; all values are the decoded
little-endian integers. -/
structure VdiHeader where
  signature : Nat
  version : Nat
  image_type : Nat
  block_offsets_offset : Nat
  data_offset : Nat
  disk_size : Nat
  block_size : Nat
  blocks_in_image : Nat
deriving DecidableEq

def VdiHeader.VERSION : Nat := 0x00010001

def VdiHeader.SIGNATURE : Nat := 0xBEDA107F

/-- `VdiDisk` (`src/lib.rs`): decoded header, block size, translated
allocation table (`None` = unallocated, `Some off` = absolute file offset of
the block), the backing reader and the cursor of the `Read` impl. -/
structure VdiDisk where
  header : VdiHeader
  block_size : Nat
  block_offsets : List (Option Nat)
  reader : ByteStore
  position : Nat

/-- `VdiDisk::open`: validate version, signature and image type, then read
`blocks_in_image * 4` bytes at `block_offsets_offset` and translate each
little-endian `u32` entry (`0xFFFFFFFF` ↦ unallocated, otherwise
`data_offset + entry * block_size`).  Any validation or read failure is
`none`. -/
def VdiDisk.openDisk (header : VdiHeader) (reader : ByteStore) : Option VdiDisk :=
  if header.version = VdiHeader.VERSION ∧ header.signature = VdiHeader.SIGNATURE ∧
      header.image_type = 1 then
    if header.blocks_in_image * 4 = 0 ∨
        header.block_offsets_offset + header.blocks_in_image * 4 ≤ reader.size then
      some
        { header := header
          block_size := header.block_size
          block_offsets :=
            (List.range header.blocks_in_image).map fun i =>
              let loc := reader.le32 (header.block_offsets_offset + 4 * i)
              if loc = 0xFFFFFFFF then none
              else some (header.data_offset + loc * header.block_size)
          reader := reader
          position := 0 }
    else none
  else none

/-- The loop body of `<VdiDisk as ReadAt>::read_at`.  `want` is the number of
bytes still needed (`buf.len() - total_read`); the returned list is the bytes
produced from `pos` on.  Each productive iteration produces at least one byte
when `block_size > 0`, so `want` is also a sufficient fuel. -/
def VdiDisk.readAtGo (d : VdiDisk) (fuel : Nat) (pos want : Nat) : List Nat :=
  match fuel with
  | 0 => []
  | fuel + 1 =>
    if want = 0 then []
    else
      let block_index := pos / d.block_size
      let block_offset := pos % d.block_size
      if block_index < d.block_offsets.length then
        let to_read := min want (d.block_size - block_offset)
        match d.block_offsets.getD block_index none with
        | some file_offset =>
          let chunk := d.reader.readAt (file_offset + block_offset) to_read
          if chunk.length = 0 then []
          else chunk ++ d.readAtGo fuel (pos + chunk.length) (want - chunk.length)
        | none =>
          List.replicate to_read 0 ++ d.readAtGo fuel (pos + to_read) (want - to_read)
      else []

/-- `<VdiDisk as ReadAt>::read_at` with a buffer of length `len`: the list of
bytes written into the buffer (its length is the returned count). -/
def VdiDisk.readAt (d : VdiDisk) (pos len : Nat) : List Nat :=
  d.readAtGo len pos len

/-- The `std::io::ErrorKind` values the crate produces. -/
inductive IoErrorKind where
  | unsupported
  | invalidInput
  | other
deriving DecidableEq

/-- `<VdiDisk as Write>::write`: always fails with `ErrorKind::Unsupported`
and leaves the disk untouched. -/
def VdiDisk.write (d : VdiDisk) (_buf : List Nat) :
    Except IoErrorKind Nat × VdiDisk :=
  (Except.error IoErrorKind.unsupported, d)

/-- `<VdiDisk as Write>::flush`: always `Ok(())`, leaves the disk untouched. -/
def VdiDisk.flush (d : VdiDisk) : Except IoErrorKind Unit × VdiDisk :=
  (Except.ok (), d)

/-! ## Byte-range slices (`src/slice.rs`) -/

/-- `std::io::SeekFrom`. -/
inductive SeekFrom where
  | start (offset : Nat)
  | fromEnd (offset : Int)
  | current (offset : Int)
deriving DecidableEq

/-- `Slice` (`src/slice.rs`): a borrowed view of a `VdiDisk` over
`[rangeStart, rangeEnd)` with its own cursor. -/
structure Slice where
  inner : VdiDisk
  rangeStart : Nat
  rangeEnd : Nat
  pos : Nat

/-- `Slice::len`: `range.end - range.start`. -/
def Slice.len (s : Slice) : Nat := s.rangeEnd - s.rangeStart

/-- The target position `<Slice as Seek>::seek` computes before bounds
checking.  `u64` arithmetic wraps (release semantics), hence the `% 2 ^ 64`. -/
def Slice.seekTarget (s : Slice) : SeekFrom → Nat
  | SeekFrom.start offset => offset
  | SeekFrom.fromEnd offset =>
    if 0 ≤ offset then (s.len + offset.toNat) % 2 ^ 64
    else (s.len + 2 ^ 64 - (-offset).toNat % 2 ^ 64) % 2 ^ 64
  | SeekFrom.current offset =>
    if 0 ≤ offset then (s.pos + offset.toNat) % 2 ^ 64
    else (s.pos + 2 ^ 64 - (-offset).toNat % 2 ^ 64) % 2 ^ 64

/-- `<Slice as Seek>::seek`: compute the target, reject it only when it
exceeds `range.end` (the absolute end offset, not the slice length). -/
def Slice.seek (s : Slice) (from_ : SeekFrom) : Except IoErrorKind Nat × Slice :=
  let new_pos := s.seekTarget from_
  if new_pos > s.rangeEnd then (Except.error IoErrorKind.invalidInput, s)
  else (Except.ok new_pos, { s with pos := new_pos })

/-- `OwnedSlice` (`src/slice.rs`): same view, owning the disk. -/
structure OwnedSlice where
  inner : VdiDisk
  rangeStart : Nat
  rangeEnd : Nat
  pos : Nat

/-- `OwnedSlice::len`. -/
def OwnedSlice.len (s : OwnedSlice) : Nat := s.rangeEnd - s.rangeStart

/-- The target position `<OwnedSlice as Seek>::seek` computes. -/
def OwnedSlice.seekTarget (s : OwnedSlice) : SeekFrom → Nat
  | SeekFrom.start offset => offset
  | SeekFrom.fromEnd offset =>
    if 0 ≤ offset then (s.len + offset.toNat) % 2 ^ 64
    else (s.len + 2 ^ 64 - (-offset).toNat % 2 ^ 64) % 2 ^ 64
  | SeekFrom.current offset =>
    if 0 ≤ offset then (s.pos + offset.toNat) % 2 ^ 64
    else (s.pos + 2 ^ 64 - (-offset).toNat % 2 ^ 64) % 2 ^ 64

/-- `<OwnedSlice as Seek>::seek`: identical bound check against
`range.end`. -/
def OwnedSlice.seek (s : OwnedSlice) (from_ : SeekFrom) :
    Except IoErrorKind Nat × OwnedSlice :=
  let new_pos := s.seekTarget from_
  if new_pos > s.rangeEnd then (Except.error IoErrorKind.invalidInput, s)
  else (Except.ok new_pos, { s with pos := new_pos })

/-! ## ext4 layer (`ext4/src/structs.rs`, `ext4/src/util.rs`, `ext4/src/lib.rs`) -/

def EXT4_SUPER_MAGIC : Nat := 0xEF53

def EXT4_ROOT_INO : Nat := 2

def EXT4_FT_REG_FILE : Nat := 1

def EXT4_FT_DIR : Nat := 2

def EXT4_EXTENTS_FL : Nat := 0x80000

/-- Decidable equality of `Except` results (for concrete evaluation). -/
instance instDecEqExcept {e a : Type} [DecidableEq e] [DecidableEq a] :
    DecidableEq (Except e a)
  | Except.error x, Except.error y => decidable_of_iff (x = y) (by simp)
  | Except.error _, Except.ok _ => Decidable.isFalse (by simp)
  | Except.ok _, Except.error _ => Decidable.isFalse (by simp)
  | Except.ok x, Except.ok y => decidable_of_iff (x = y) (by simp)

/-- `Ext4Error` (`ext4/src/lib.rs`).  `ioErr` covers the `Io` variant. -/
inductive Ext4Error where
  | ioErr
  | invalidSuperblock
  | unsupportedFeature
  | invalidInode (n : Nat)
  | fileNotFound
  | invalidDirectoryEntry
deriving DecidableEq

/-- The fields of `Superblock` (`ext4/src/structs.rs`) the reader consumes.
The full record is 104 bytes; the byte offsets used by the decoder below are
those of the `#[repr(C)]` layout. -/
structure Superblock where
  s_blocks_count_lo : Nat
  s_log_block_size : Nat
  s_blocks_per_group : Nat
  s_inodes_per_group : Nat
  s_magic : Nat
  s_inode_size : Nat
deriving DecidableEq

/-- Byte length of the `Superblock` record. -/
def Superblock.byteSize : Nat := 104

/-- Decode a `Superblock` at offset `off` of a store (field offsets per the
`repr(C)` layout: `s_blocks_count_lo` at 4, `s_log_block_size` at 24,
`s_blocks_per_group` at 32, `s_inodes_per_group` at 40, `s_magic` at 56,
`s_inode_size` at 88). -/
def decodeSuperblock (s : ByteStore) (off : Nat) : Superblock :=
  { s_blocks_count_lo := s.le32 (off + 4)
    s_log_block_size := s.le32 (off + 24)
    s_blocks_per_group := s.le32 (off + 32)
    s_inodes_per_group := s.le32 (off + 40)
    s_magic := s.le16 (off + 56)
    s_inode_size := s.le16 (off + 88) }

/-- The field of `GroupDescriptor` (`ext4/src/structs.rs`) the reader consumes;
the full record is 64 bytes, `bg_inode_table_lo` at byte offset 8. -/
structure GroupDescriptor where
  bg_inode_table_lo : Nat
deriving DecidableEq

/-- Byte length of the `GroupDescriptor` record. -/
def GroupDescriptor.byteSize : Nat := 64

/-- `Inode` (`ext4/src/structs.rs`), restricted to the consumed fields.  The
full record is 116 bytes: `i_mode` at 0, `i_size_lo` at 4, `i_flags` at 32,
`i_block[j]` at `40 + 4 * j` (15 words), `i_size_high` at 108. -/
structure Inode where
  i_mode : Nat
  i_size_lo : Nat
  i_flags : Nat
  i_block : List Nat
  i_size_high : Nat
deriving DecidableEq

/-- Byte length of the `Inode` record. -/
def Inode.byteSize : Nat := 116

/-- Decode an `Inode` at offset `off` of a store. -/
def decodeInode (s : ByteStore) (off : Nat) : Inode :=
  { i_mode := s.le16 off
    i_size_lo := s.le32 (off + 4)
    i_flags := s.le32 (off + 32)
    i_block := (List.range 15).map fun j => s.le32 (off + 40 + 4 * j)
    i_size_high := s.le32 (off + 108) }

/-- The combined 64-bit size `(i_size_high << 32) | i_size_lo`. -/
def Inode.size (inode : Inode) : Nat :=
  inode.i_size_high * 2 ^ 32 + inode.i_size_lo

/-- `DirEntry` (`ext4/src/structs.rs`): a raw directory record.  The name is
kept as its byte sequence (the Rust code stores the lossy-UTF-8 decoding of
the same bytes; comparisons and ordering below are byte-wise, as they are for
Rust `String`s). -/
structure DirEntry where
  inode : Nat
  rec_len : Nat
  name_len : Nat
  file_type : Nat
  name : List Nat
deriving DecidableEq

/-- `DirectoryEntry` (`ext4/src/structs.rs`): a listing entry.  `path` is the
component sequence of the entry's full path. -/
structure DirectoryEntry where
  name : List Nat
  path : List (List Nat)
  is_file : Bool
  is_dir : Bool
  size : Nat
deriving DecidableEq

/-- `Metadata` (`ext4/src/lib.rs`). -/
structure Metadata where
  is_file : Bool
  is_dir : Bool
  size : Nat
  mode : Nat
deriving DecidableEq

/-- `Ext4Reader` (`ext4/src/lib.rs`). -/
structure Ext4Reader where
  reader : ByteStore
  superblock : Superblock
  group_descriptors : List GroupDescriptor
  block_size : Nat

/-- `Ext4Reader::read_superblock`: decode the 104-byte record at offset 1024
(`read_pod_owned`, failing with an I/O error when the store is too short) and
reject a bad magic. -/
def Ext4Reader.read_superblock (reader : ByteStore) : Except Ext4Error Superblock :=
  if 1024 + Superblock.byteSize ≤ reader.size then
    let s := decodeSuperblock reader 1024
    if s.s_magic ≠ EXT4_SUPER_MAGIC then Except.error Ext4Error.invalidSuperblock
    else Except.ok s
  else Except.error Ext4Error.ioErr

/-- `Ext4Reader::read_group_descriptors`: `group_count` consecutive 64-byte
records at `gdt_offset` (`read_pod_vec`; the read fails only when the
`64 * group_count`-byte range is not fully inside the store, a zero-length
read always succeeding). -/
def Ext4Reader.read_group_descriptors (reader : ByteStore) (group_count : Nat)
    (block_size : Nat) : Except Ext4Error (List GroupDescriptor) :=
  let gdt_offset := if block_size = 1024 then 2048 else block_size
  if group_count = 0 ∨
      gdt_offset + GroupDescriptor.byteSize * group_count ≤ reader.size then
    Except.ok ((List.range group_count).map fun i =>
      { bg_inode_table_lo := reader.le32 (gdt_offset + 64 * i + 8) })
  else Except.error Ext4Error.ioErr

/-- `Ext4Reader::new`: superblock, block size (`1024 << s_log_block_size`,
falling back to 1024 for shifts of 32 or more), `group_count =
ceil(s_blocks_count_lo / s_blocks_per_group)`, then the descriptor table. -/
def Ext4Reader.new (reader : ByteStore) : Except Ext4Error Ext4Reader := do
  let superblock ← Ext4Reader.read_superblock reader
  let block_size := if superblock.s_log_block_size < 32 then
    1024 * 2 ^ superblock.s_log_block_size else 1024
  let group_count :=
    (superblock.s_blocks_count_lo + superblock.s_blocks_per_group - 1) /
      superblock.s_blocks_per_group
  let group_descriptors ←
    Ext4Reader.read_group_descriptors reader group_count block_size
  Except.ok
    { reader := reader
      superblock := superblock
      group_descriptors := group_descriptors
      block_size := block_size }

/-- `Ext4Reader::read_inode`: group/index arithmetic on the 1-based inode
number, bounds check against the descriptor table, then a 116-byte
`read_pod_owned` at `bg_inode_table_lo * block_size + index * s_inode_size`. -/
def Ext4Reader.read_inode (r : Ext4Reader) (inode_num : Nat) :
    Except Ext4Error Inode :=
  if inode_num = 0 then Except.error (Ext4Error.invalidInode inode_num)
  else
    let group := (inode_num - 1) / r.superblock.s_inodes_per_group
    let index := (inode_num - 1) % r.superblock.s_inodes_per_group
    if group ≥ r.group_descriptors.length then
      Except.error (Ext4Error.invalidInode inode_num)
    else
      let group_desc := r.group_descriptors.getD group ⟨0⟩
      let inode_offset := group_desc.bg_inode_table_lo * r.block_size +
        index * r.superblock.s_inode_size
      if inode_offset + Inode.byteSize ≤ r.reader.size then
        Except.ok (decodeInode r.reader inode_offset)
      else Except.error Ext4Error.ioErr

/-- Decode a byte list into little-endian `u32` words (`chunks_exact(4)`:
a trailing fragment shorter than 4 bytes is dropped). -/
def bytesToU32 : List Nat → List Nat
  | b0 :: b1 :: b2 :: b3 :: rest =>
    (b0 + 256 * b1 + 65536 * b2 + 16777216 * b3) :: bytesToU32 rest
  | _ => []

/-- Extent-node header accessors (`ext4/src/lib.rs`,
`read_extent_blocks_recursive`): word 0 low 16 bits = magic, word 0 high 16
bits = entry count, word 1 high 16 bits = depth. -/
def extentMagic (extent_data : List Nat) : Nat := extent_data.getD 0 0 % 65536

def extentEntries (extent_data : List Nat) : Nat :=
  extent_data.getD 0 0 / 65536 % 65536

def extentDepth (extent_data : List Nat) : Nat :=
  extent_data.getD 1 0 / 65536 % 65536

/-- The leaf loop of `read_extent_blocks_recursive` over the given entry
indices: an in-bounds entry `i` (words `3 + 3 i .. 3 + 3 i + 2`) contributes
`length` consecutive physical block numbers starting at
`(physical_hi << 32) | physical_lo`, each truncated to `u32` by the
`as u32` push; an out-of-bounds entry contributes nothing. -/
def extentLeafBlocks (extent_data : List Nat) : List Nat → List Nat
  | [] => []
  | i :: rest =>
    (if 3 + i * 3 + 2 < extent_data.length then
      let length := extent_data.getD (3 + i * 3 + 1) 0 % 65536
      let physical_block_hi := extent_data.getD (3 + i * 3 + 1) 0 / 65536 % 65536
      let physical_block_lo := extent_data.getD (3 + i * 3 + 2) 0
      let physical_block := physical_block_hi * 2 ^ 32 + physical_block_lo
      (List.range length).map fun j => (physical_block + j) % 2 ^ 32
    else []) ++ extentLeafBlocks extent_data rest

/-- The index loop of `read_extent_blocks_recursive` over the given entry
indices.  `recur` is the recursive call at the next lower fuel; for an
in-bounds entry the child node (one full `block_size` read at
`physical * block_size`, reinterpreted as `u32` words) is walked and its
blocks appended. -/
def extentIndexLoop (r : Ext4Reader)
    (recur : List Nat → Except Ext4Error (List Nat)) (extent_data : List Nat) :
    List Nat → Except Ext4Error (List Nat)
  | [] => Except.ok []
  | i :: rest =>
    if 3 + i * 3 + 2 < extent_data.length then
      let physical_block_lo := extent_data.getD (3 + i * 3 + 1) 0
      let physical_block_hi := extent_data.getD (3 + i * 3 + 2) 0 % 65536
      let physical_block := physical_block_hi * 2 ^ 32 + physical_block_lo
      match r.reader.readExactAt (physical_block * r.block_size) r.block_size with
      | none => Except.error Ext4Error.ioErr
      | some block_data => do
        let sub_blocks ← recur (bytesToU32 block_data)
        let rest_blocks ← extentIndexLoop r recur extent_data rest
        Except.ok (sub_blocks ++ rest_blocks)
    else extentIndexLoop r recur extent_data rest

/-- `Ext4Reader::read_extent_blocks_recursive`: reject a bad magic, expand
leaf entries at depth 0, recurse through index entries otherwise.  `fuel`
bounds the recursion depth (the Rust recursion is unbounded; any well-formed
tree of depth `≤ fuel` is unaffected, and exhausted fuel reports an I/O
error). -/
def Ext4Reader.read_extent_blocks_recursive (r : Ext4Reader) :
    Nat → List Nat → Except Ext4Error (List Nat)
  | fuel, extent_data =>
    if extentMagic extent_data ≠ 0xF30A then
      Except.error Ext4Error.unsupportedFeature
    else if extentDepth extent_data = 0 then
      Except.ok (extentLeafBlocks extent_data (List.range (extentEntries extent_data)))
    else
      match fuel with
      | 0 => Except.error Ext4Error.ioErr
      | fuel + 1 =>
        extentIndexLoop r (r.read_extent_blocks_recursive fuel) extent_data
          (List.range (extentEntries extent_data))

/-- `Ext4Reader::read_extent_blocks`: walk the tree rooted at the inode's 15
`i_block` words. -/
def Ext4Reader.read_extent_blocks (r : Ext4Reader) (fuel : Nat) (inode : Inode) :
    Except Ext4Error (List Nat) :=
  r.read_extent_blocks_recursive fuel inode.i_block

/-- The record scan of `Ext4Reader::read_directory_block` from `offset`
upward.  Mirrors the Rust loop: stop cleanly when fewer than 8 bytes remain or
`size` bytes are consumed; fail on `rec_len == 0` or a `rec_len` crossing the
block end; the `name_len` check compares against `rec_len as usize - 8`, which
wraps modulo `2 ^ 64` when `rec_len < 8` (release semantics of the Rust
subtraction).  Records with inode 0 or an empty name are skipped. -/
def scanDirBlockGo (block_data : List Nat) (size : Nat) :
    Nat → Nat → Except Ext4Error (List DirEntry)
  | 0, _ => Except.ok []
  | fuel + 1, offset =>
    if offset < block_data.length ∧ offset < size then
      if offset + 8 > block_data.length then Except.ok []
      else
        let inode := listLE32 block_data offset
        let rec_len := listLE16 block_data (offset + 4)
        if rec_len = 0 ∨ rec_len > block_data.length - offset then
          Except.error Ext4Error.invalidDirectoryEntry
        else
          let name_len := block_data.getD (offset + 6) 0
          let file_type := block_data.getD (offset + 7) 0
          if name_len > (rec_len + (2 ^ 64 - 8)) % 2 ^ 64 then
            Except.error Ext4Error.invalidDirectoryEntry
          else
            let name := (block_data.drop (offset + 8)).take name_len
            match scanDirBlockGo block_data size fuel (offset + rec_len) with
            | Except.error e => Except.error e
            | Except.ok rest =>
              let entry : DirEntry :=
                { inode := inode
                  rec_len := rec_len
                  name_len := name_len
                  file_type := file_type
                  name := name }
              if inode ≠ 0 ∧ name ≠ [] then Except.ok (entry :: rest)
              else Except.ok rest
    else Except.ok []

/-- The record scan of a directory block from offset 0: since `rec_len ≥ 1`
on every continuing iteration, `block_data.length + 1` steps of fuel always
reach a terminal state, so the fuel-indexed loop is exact. -/
def scanDirBlock (block_data : List Nat) (size : Nat) :
    Except Ext4Error (List DirEntry) :=
  scanDirBlockGo block_data size (block_data.length + 1) 0

/-- `Ext4Reader::read_directory_block`: read one full block at
`block_num * block_size` and scan its records; the scanned entries are
appended to the accumulator (the Rust `&mut Vec`). -/
def Ext4Reader.read_directory_block (r : Ext4Reader) (block_num : Nat)
    (size : Nat) (entries : List DirEntry) : Except Ext4Error (List DirEntry) :=
  match r.reader.readExactAt (block_num * r.block_size) r.block_size with
  | none => Except.error Ext4Error.ioErr
  | some block_data => do
    let found ← scanDirBlock block_data size
    Except.ok (entries ++ found)

/-- The block list `read_directory_entries` and `read_file_data_range`
iterate when `EXT4_EXTENTS_FL` is clear: `i_block[0..12]` truncated at the
first zero. -/
def directBlocks (inode : Inode) : List Nat :=
  (inode.i_block.take 12).takeWhile fun b => b ≠ 0

/-- Monadic fold of `read_directory_block` over a block list. -/
def readDirectoryBlocks (r : Ext4Reader) (size : Nat) (entries : List DirEntry) :
    List Nat → Except Ext4Error (List DirEntry)
  | [] => Except.ok entries
  | block_num :: rest => do
    let entries ← r.read_directory_block block_num size entries
    readDirectoryBlocks r size entries rest

/-- `Ext4Reader::read_directory_entries`: scan every data block of the
directory (extent walk when `EXT4_EXTENTS_FL` is set, direct blocks
otherwise), accumulating records in block order. -/
def Ext4Reader.read_directory_entries (r : Ext4Reader) (fuel : Nat)
    (inode : Inode) : Except Ext4Error (List DirEntry) := do
  let size := inode.size
  if inode.i_flags &&& EXT4_EXTENTS_FL ≠ 0 then
    let blocks ← r.read_extent_blocks fuel inode
    readDirectoryBlocks r size [] blocks
  else
    readDirectoryBlocks r size [] (directBlocks inode)

/-- The component walk of `Ext4Reader::find_inode_by_path`: read the current
inode, require directory mode, scan its entries and follow the first one whose
name equals the component. -/
def findInodeGo (r : Ext4Reader) (fuel : Nat) :
    Nat → List (List Nat) → Except Ext4Error Nat
  | current_inode, [] => Except.ok current_inode
  | current_inode, component :: rest => do
    let inode ← r.read_inode current_inode
    if inode.i_mode &&& 0xF000 ≠ 0x4000 then Except.error Ext4Error.fileNotFound
    else do
      let entries ← r.read_directory_entries fuel inode
      match entries.find? fun e => e.name = component with
      | some entry => findInodeGo r fuel entry.inode rest
      | none => Except.error Ext4Error.fileNotFound

/-- `Ext4Reader::find_inode_by_path`.  A path is modelled as its slash-split
component list; empty components are discarded as in the Rust `split('/')`
filter, so the root path is the empty list and resolves to inode 2 without any
read. -/
def Ext4Reader.find_inode_by_path (r : Ext4Reader) (fuel : Nat)
    (path : List (List Nat)) : Except Ext4Error Nat :=
  findInodeGo r fuel EXT4_ROOT_INO (path.filter fun c => c ≠ [])

/-- `Ext4Reader::exists`: true iff `find_inode_by_path` succeeds. -/
def Ext4Reader.existsPath (r : Ext4Reader) (fuel : Nat)
    (path : List (List Nat)) : Bool :=
  (r.find_inode_by_path fuel path).isOk

/-- `Ext4Reader::metadata`: `find_inode_by_path`, then `read_inode`, any error
becoming `none`. -/
def Ext4Reader.metadata (r : Ext4Reader) (fuel : Nat) (path : List (List Nat)) :
    Option Metadata := do
  let inode_num ← (r.find_inode_by_path fuel path).toOption
  let inode ← (r.read_inode inode_num).toOption
  some
    { is_file := inode.i_mode &&& 0xF000 = 0x8000
      is_dir := inode.i_mode &&& 0xF000 = 0x4000
      size := inode.size
      mode := inode.i_mode }

/-- Byte-wise lexicographic `≤` on names; this is the order of Rust `String`
comparison (UTF-8 code-unit order) used by `sort_by_key`. -/
def nameLe : List Nat → List Nat → Bool
  | [], _ => true
  | _ :: _, [] => false
  | a :: as, b :: bs => if a < b then true else if b < a then false else nameLe as bs

/-- `Ext4Reader::read_dir`: resolve the path, require directory mode, read
all records, drop `.` and `..`, build listing entries (a regular file's size
coming from its inode, degrading to 0 if that inode cannot be read) and sort
ascending by name.  The returned list is the sequence the `DirectoryIterator`
yields. -/
def Ext4Reader.read_dir (r : Ext4Reader) (fuel : Nat) (path : List (List Nat)) :
    Except Ext4Error (List DirectoryEntry) := do
  let inode_num ← r.find_inode_by_path fuel path
  let inode ← r.read_inode inode_num
  if inode.i_mode &&& 0xF000 ≠ 0x4000 then Except.error Ext4Error.fileNotFound
  else do
    let entries ← r.read_directory_entries fuel inode
    let dir_entries :=
      (entries.filter fun e => e.name ≠ [46] ∧ e.name ≠ [46, 46]).map fun e =>
        let is_dir := e.file_type = EXT4_FT_DIR
        let is_file := e.file_type = EXT4_FT_REG_FILE
        let size := if is_file then
          match r.read_inode e.inode with
          | Except.ok file_inode => file_inode.size
          | Except.error _ => 0
        else 0
        { name := e.name
          path := (path.filter fun c => c ≠ []) ++ [e.name]
          is_file := is_file
          is_dir := is_dir
          size := size }
    Except.ok (dir_entries.mergeSort fun a b => nameLe a.name b.name)

/-- `Ext4FileReader` (`ext4/src/lib.rs`): the stream over an open regular
file (the shared borrow of the reader is passed explicitly to `read`). -/
structure Ext4FileReader where
  inode : Inode
  position : Nat
  size : Nat
deriving DecidableEq

/-- `Ext4Reader::open`: resolve the path, require regular-file mode, seed a
stream at position 0. -/
def Ext4Reader.openFile (r : Ext4Reader) (fuel : Nat) (path : List (List Nat)) :
    Except Ext4Error Ext4FileReader := do
  let inode_num ← r.find_inode_by_path fuel path
  let inode ← r.read_inode inode_num
  if inode.i_mode &&& 0xF000 ≠ 0x8000 then Except.error Ext4Error.fileNotFound
  else
    Except.ok { inode := inode, position := 0, size := inode.size }

/-- The per-block loop of `Ext4Reader::read_file_data_range`: skip blocks
below `start_block`, then read `min(block_size - skip, remaining)` bytes of
each block (`skip = start_offset` only on the first used block), concatenating
in order until `remaining` is exhausted or the block list ends. -/
def readBlocksLoop (r : Ext4Reader) (start_block start_offset : Nat) :
    List Nat → Nat → Nat → Except Ext4Error (List Nat)
  | [], _, _ => Except.ok []
  | block_num :: rest, block_idx, remaining =>
    if block_idx < start_block then
      readBlocksLoop r start_block start_offset rest (block_idx + 1) remaining
    else if remaining = 0 then Except.ok []
    else
      let skip_bytes := if block_idx = start_block then start_offset else 0
      let read_size := min (r.block_size - skip_bytes) remaining
      match r.reader.readExactAt (block_num * r.block_size + skip_bytes) read_size with
      | none => Except.error Ext4Error.ioErr
      | some block_data => do
        let rest_data ←
          readBlocksLoop r start_block start_offset rest (block_idx + 1)
            (remaining - read_size)
        Except.ok (block_data ++ rest_data)

/-- `Ext4Reader::read_file_data_range`: empty past the file size, otherwise
clamp the length to the file size, obtain the block list (extent walk or
direct blocks) and run the per-block loop from
`start_block = start / block_size`, `start_offset = start % block_size`. -/
def Ext4Reader.read_file_data_range (r : Ext4Reader) (fuel : Nat) (inode : Inode)
    (start : Nat) (length : Nat) : Except Ext4Error (List Nat) := do
  let file_size := inode.size
  if start ≥ file_size then Except.ok []
  else
    let actual_length := min length (file_size - start)
    let start_block := start / r.block_size
    let start_offset := start % r.block_size
    let blocks ← if inode.i_flags &&& EXT4_EXTENTS_FL ≠ 0 then
      r.read_extent_blocks fuel inode
    else Except.ok (directBlocks inode)
    readBlocksLoop r start_block start_offset blocks 0 actual_length

/-- `<Ext4FileReader as Read>::read` with a buffer of length `len`: EOF (no
bytes) at or past `size`, otherwise serve
`min(len, size - position)` bytes through `read_file_data_range` (an error of
which surfaces as an I/O error) and advance the cursor by the bytes
produced. -/
def Ext4FileReader.read (r : Ext4Reader) (fuel : Nat) (f : Ext4FileReader)
    (len : Nat) : Except Ext4Error (List Nat × Ext4FileReader) :=
  if f.position ≥ f.size then Except.ok ([], f)
  else
    let to_read := min len (f.size - f.position)
    if to_read = 0 then Except.ok ([], f)
    else
      match r.read_file_data_range fuel f.inode f.position to_read with
      | Except.error e => Except.error e
      | Except.ok data =>
        Except.ok (data, { f with position := f.position + data.length })

/-- `<Ext4FileReader as Seek>::seek`: compute the target (negative offsets via
`checked_sub`, failing on underflow) and reject targets beyond `size`. -/
def Ext4FileReader.seek (f : Ext4FileReader) (from_ : SeekFrom) :
    Except IoErrorKind (Nat × Ext4FileReader) :=
  let new_pos? : Except IoErrorKind Nat :=
    match from_ with
    | SeekFrom.start offset => Except.ok offset
    | SeekFrom.fromEnd offset =>
      if 0 ≤ offset then Except.ok ((f.size + offset.toNat) % 2 ^ 64)
      else if (-offset).toNat ≤ f.size then Except.ok (f.size - (-offset).toNat)
      else Except.error IoErrorKind.invalidInput
    | SeekFrom.current offset =>
      if 0 ≤ offset then Except.ok ((f.position + offset.toNat) % 2 ^ 64)
      else if (-offset).toNat ≤ f.position then
        Except.ok (f.position - (-offset).toNat)
      else Except.error IoErrorKind.invalidInput
  match new_pos? with
  | Except.error e => Except.error e
  | Except.ok new_pos =>
    if new_pos > f.size then Except.error IoErrorKind.invalidInput
    else Except.ok (new_pos, { f with position := new_pos })

/-! ## Concrete instances used by counterexamples and witnesses -/

/-- A VDI backing file of 4 bytes, all `0xFF`: a one-entry allocation table
whose single entry is the unallocated sentinel. -/
def vdiFileB : ByteStore := ⟨4, fun _ => 255⟩

/-- A syntactically valid dynamic-VDI header declaring `disk_size = 0` but one
1-block allocation table (`block_size = 4`, table at offset 0). -/
def vdiHeaderB : VdiHeader :=
  { signature := VdiHeader.SIGNATURE
    version := VdiHeader.VERSION
    image_type := 1
    block_offsets_offset := 0
    data_offset := 100
    disk_size := 0
    block_size := 4
    blocks_in_image := 1 }

/-- The disk `VdiDisk::open` builds from `vdiHeaderB`/`vdiFileB`. -/
def vdiDiskB : VdiDisk :=
  { header := vdiHeaderB
    block_size := 4
    block_offsets := [none]
    reader := vdiFileB
    position := 0 }

/-- The backing file of the spec's concrete VDI scenario: allocation table
`[0xFFFFFFFF, 0, 0xFFFFFFFF, 1]` at offset 512, data area at `0x200000`
starting with bytes `1, 2, 3, 4`. -/
def vdiFileC : ByteStore :=
  ⟨0x200004, fun i =>
    if 512 ≤ i ∧ i < 516 then 255
    else if 520 ≤ i ∧ i < 524 then 255
    else if i = 524 then 1
    else if 0x200000 ≤ i ∧ i < 0x200004 then i - 0x200000 + 1
    else 0⟩

/-- The spec's concrete VDI header: `block_size = 1048576`,
`blocks_in_image = 4`, `data_offset = 0x200000`, table at offset 512. -/
def vdiHeaderC : VdiHeader :=
  { signature := VdiHeader.SIGNATURE
    version := VdiHeader.VERSION
    image_type := 1
    block_offsets_offset := 512
    data_offset := 0x200000
    disk_size := 4194304
    block_size := 1048576
    blocks_in_image := 4 }

/-- The disk `VdiDisk::open` builds from `vdiHeaderC`/`vdiFileC`. -/
def vdiDiskC : VdiDisk :=
  { header := vdiHeaderC
    block_size := 1048576
    block_offsets := [none, some 0x200000, none, some 0x300000]
    reader := vdiFileC
    position := 0 }

/-- An arbitrary disk with a positive `disk_size` (used to read with an empty
buffer). -/
def vdiDiskD : VdiDisk :=
  { header :=
      { signature := 0
        version := 0
        image_type := 0
        block_offsets_offset := 0
        data_offset := 0
        disk_size := 10
        block_size := 4
        blocks_in_image := 1 }
    block_size := 4
    block_offsets := [none]
    reader := ⟨0, fun _ => 0⟩
    position := 0 }

/-! ## Validity and measures for extent trees (statement-side definitions) -/

/-- The physical block number an index entry `i` points at
(`(physical_hi << 32) | physical_lo` with `physical_lo = word (base+1)`,
`physical_hi = low 16 bits of word (base+2)`). -/
def extentIndexPhys (extent_data : List Nat) (i : Nat) : Nat :=
  extent_data.getD (3 + i * 3 + 2) 0 % 65536 * 2 ^ 32 +
    extent_data.getD (3 + i * 3 + 1) 0

/-- A well-formed extent node, as the claim under study describes one: the
two header words are present, the magic is `0xF30A`, every declared entry
record lies within the node's word buffer, and — for an index node — every
child block is fully inside the backing store and is itself a well-formed
node at one less fuel (bounding the tree depth). -/
def validExtentNode (r : Ext4Reader) : Nat → List Nat → Bool
  | fuel, extent_data =>
    decide (2 ≤ extent_data.length) &&
    decide (extentMagic extent_data = 0xF30A) &&
    ((List.range (extentEntries extent_data)).all fun i =>
      decide (3 + i * 3 + 2 < extent_data.length)) &&
    (if extentDepth extent_data = 0 then true
     else
       match fuel with
       | 0 => false
       | fuel + 1 =>
         (List.range (extentEntries extent_data)).all fun i =>
           decide (extentIndexPhys extent_data i * r.block_size + r.block_size ≤
             r.reader.size) &&
           validExtentNode r fuel
             (bytesToU32 (r.reader.bytes
               (extentIndexPhys extent_data i * r.block_size) r.block_size)))

/-- Sum of the `length` fields of the leaf entries at the given indices
(an out-of-bounds entry is unreachable and contributes nothing). -/
def leafLengthSum (extent_data : List Nat) : List Nat → Nat
  | [] => 0
  | i :: rest =>
    (if 3 + i * 3 + 2 < extent_data.length then
      extent_data.getD (3 + i * 3 + 1) 0 % 65536
    else 0) + leafLengthSum extent_data rest

/-- Sum of the index-entry subtree sums at the given indices, `recur` giving
the subtree sum of a child node. -/
def indexLengthSum (r : Ext4Reader) (recur : List Nat → Nat)
    (extent_data : List Nat) : List Nat → Nat
  | [] => 0
  | i :: rest =>
    (if 3 + i * 3 + 2 < extent_data.length then
      recur (bytesToU32 (r.reader.bytes
        (extentIndexPhys extent_data i * r.block_size) r.block_size))
    else 0) + indexLengthSum r recur extent_data rest

/-- The sum of the `length` fields over all depth-0 extent entries reachable
from the given node. -/
def extentTreeLeafSum (r : Ext4Reader) : Nat → List Nat → Nat
  | fuel, extent_data =>
    if extentDepth extent_data = 0 then
      leafLengthSum extent_data (List.range (extentEntries extent_data))
    else
      match fuel with
      | 0 => 0
      | fuel + 1 =>
        indexLengthSum r (extentTreeLeafSum r fuel) extent_data
          (List.range (extentEntries extent_data))

/-! ## Name order (statement-side definitions) -/

/-- Strict byte-wise lexicographic order on names. -/
def nameLt (a b : List Nat) : Bool :=
  nameLe a b && decide (a ≠ b)

/-- A listing is strictly sorted ascending by name. -/
def strictlySortedByName (l : List DirectoryEntry) : Prop :=
  List.Pairwise (fun a b => nameLt a.name b.name = true) l

/-- A listing is sorted (non-strictly) ascending by name. -/
def sortedByName (l : List DirectoryEntry) : Prop :=
  List.Pairwise (fun a b => nameLe a.name b.name = true) l

/-! ## Block concatenation (statement-side definition for file reads) -/

/-- The backing bytes of a block list laid end to end: block `b` contributes
the `block_size` bytes at `b * block_size`. -/
def concatBlockBytes (r : Ext4Reader) : List Nat → List Nat
  | [] => []
  | b :: rest =>
    r.reader.bytes (b * r.block_size) r.block_size ++ concatBlockBytes r rest

/-- The block list `read_file_data_range` serves a file from: the extent walk
when `EXT4_EXTENTS_FL` is set, the direct blocks otherwise. -/
def Ext4Reader.fileBlocks (r : Ext4Reader) (fuel : Nat) (inode : Inode) :
    Except Ext4Error (List Nat) :=
  if inode.i_flags &&& EXT4_EXTENTS_FL ≠ 0 then r.read_extent_blocks fuel inode
  else Except.ok (directBlocks inode)

/-! ## Concrete ext4 images used by counterexamples and witnesses -/

/-- Superblock bytes of image A (offsets relative to 1024):
`s_blocks_count_lo = 1`, `s_log_block_size = 0` (block size 1024),
`s_blocks_per_group = 1`, `s_inodes_per_group = 16`, magic `0xEF53`,
`s_inode_size = 128`. -/
def imgA_sb (j : Nat) : Nat :=
  if j = 4 then 1
  else if j = 32 then 1
  else if j = 40 then 16
  else if j = 56 then 0x53
  else if j = 57 then 0xEF
  else if j = 88 then 128
  else 0

/-- Root inode (inode 2) of image A: directory mode `0x4000`, size 1024,
no extents, first direct block 5. -/
def imgA_inode2 (j : Nat) : Nat :=
  if j = 1 then 0x40
  else if j = 5 then 4
  else if j = 40 then 5
  else 0

/-- Inode 12 of image A: regular-file mode `0x8000`, size 8, no extents,
first direct block 6. -/
def imgA_inode12 (j : Nat) : Nat :=
  if j = 1 then 0x80
  else if j = 4 then 8
  else if j = 40 then 6
  else 0

/-- Root directory data block of image A: two records, both named `"a"`
(byte 97) and pointing at inode 12 as a regular file; the second record's
`rec_len` (1012) reaches the end of the 1024-byte block. -/
def imgA_dir (j : Nat) : Nat :=
  if j = 0 then 12
  else if j = 4 then 12
  else if j = 6 then 1
  else if j = 7 then 1
  else if j = 8 then 97
  else if j = 12 then 12
  else if j = 16 then 244
  else if j = 17 then 3
  else if j = 18 then 1
  else if j = 19 then 1
  else if j = 20 then 97
  else 0

/-- Image A: a 8192-byte ext4 image with one block group (inode table at
block 3), a root directory (block 5) holding two entries named `"a"`, and an
8-byte file `ABCDEFGH` (inode 12, block 6). -/
def imgA : ByteStore :=
  ⟨8192, fun i =>
    if 1024 ≤ i ∧ i < 1128 then imgA_sb (i - 1024)
    else if i = 2056 then 3
    else if 3200 ≤ i ∧ i < 3316 then imgA_inode2 (i - 3200)
    else if 4480 ≤ i ∧ i < 4596 then imgA_inode12 (i - 4480)
    else if 5120 ≤ i ∧ i < 6144 then imgA_dir (i - 5120)
    else if 6144 ≤ i ∧ i < 6152 then 65 + (i - 6144)
    else 0⟩

/-- The reader `Ext4Reader::new` builds from image A. -/
def rdrA : Ext4Reader :=
  { reader := imgA
    superblock :=
      { s_blocks_count_lo := 1
        s_log_block_size := 0
        s_blocks_per_group := 1
        s_inodes_per_group := 16
        s_magic := 0xEF53
        s_inode_size := 128 }
    group_descriptors := [⟨3⟩]
    block_size := 1024 }

/-- Image B: a valid superblock declaring zero blocks, so the group
descriptor table is empty and no inode — not even the root — can be read. -/
def imgB : ByteStore :=
  ⟨1128, fun i =>
    if 1024 ≤ i ∧ i < 1128 then
      (if i = 1056 then 1
       else if i = 1064 then 1
       else if i = 1080 then 0x53
       else if i = 1081 then 0xEF
       else if i = 1112 then 128
       else 0)
    else 0⟩

/-- The reader `Ext4Reader::new` builds from image B. -/
def rdrB : Ext4Reader :=
  { reader := imgB
    superblock :=
      { s_blocks_count_lo := 0
        s_log_block_size := 0
        s_blocks_per_group := 1
        s_inodes_per_group := 1
        s_magic := 0xEF53
        s_inode_size := 128 }
    group_descriptors := []
    block_size := 1024 }

/-- Image D: block 1 holds a directory block whose first record has
`rec_len = 4` (smaller than the 8-byte record header) and `name_len = 0`;
the record at offset 4 spans the rest of the block. -/
def imgD : ByteStore :=
  ⟨2048, fun i =>
    if i = 1028 then 4
    else if i = 1032 then 252
    else if i = 1033 then 3
    else 0⟩

/-- A reader over image D (only `reader` and `block_size` feed the directory
block scan). -/
def rdrD : Ext4Reader :=
  { reader := imgD
    superblock :=
      { s_blocks_count_lo := 0
        s_log_block_size := 0
        s_blocks_per_group := 1
        s_inodes_per_group := 1
        s_magic := 0xEF53
        s_inode_size := 128 }
    group_descriptors := []
    block_size := 1024 }

/-- The bytes of image D's directory block. -/
def blockD : List Nat := imgD.bytes 1024 1024

/-- A zeroed inode record (placeholder stream state for witnesses). -/
def inode0 : Inode :=
  { i_mode := 0
    i_size_lo := 0
    i_flags := 0
    i_block := List.replicate 15 0
    i_size_high := 0 }

/-- An exhausted stream (size 0) used to witness the stream half of the
read-count bounds. -/
def fileReaderB : Ext4FileReader :=
  { inode := inode0, position := 0, size := 0 }

/-- The store of the depth-1 extent witness: a single child node at offset 8
(block 1 of an 8-byte block size) holding a valid empty leaf node. -/
def imgE : ByteStore :=
  ⟨16, fun i =>
    if i = 8 then 0x0A
    else if i = 9 then 0xF3
    else 0⟩

/-- A reader over the extent-witness store, with an 8-byte block size. -/
def rdrE : Ext4Reader :=
  { reader := imgE
    superblock :=
      { s_blocks_count_lo := 0
        s_log_block_size := 0
        s_blocks_per_group := 1
        s_inodes_per_group := 1
        s_magic := 0xEF53
        s_inode_size := 128 }
    group_descriptors := []
    block_size := 8 }

/-- The 15-word root node of the extent witness: magic `0xF30A`, one entry,
depth 1; the index entry points at physical block 1. -/
def rootE : List Nat :=
  [0x1F30A, 0x10000, 0, 0, 1, 0, 0, 0, 0, 0, 0, 0, 0, 0, 0]

/-- Inode 12 of image A as decoded by `read_inode`. -/
def inodeA12 : Inode :=
  { i_mode := 0x8000
    i_size_lo := 8
    i_flags := 0
    i_block := [6, 0, 0, 0, 0, 0, 0, 0, 0, 0, 0, 0, 0, 0, 0]
    i_size_high := 0 }

/-- The listing entry image A's directory scan produces (twice). -/
def entryA : DirectoryEntry :=
  { name := [97], path := [[97]], is_file := true, is_dir := false, size := 8 }

/-! ## Basic facts about the byte-store model -/

theorem ByteStore.bytes_length (s : ByteStore) (off n : Nat) :
    (s.bytes off n).length = n := by
  induction n generalizing off with
  | zero => rfl
  | succ n ih => simp [ByteStore.bytes, ih]

theorem ByteStore.readAt_length (s : ByteStore) (off len : Nat) :
    (s.readAt off len).length = min len (s.size - off) := by
  simp [ByteStore.readAt, ByteStore.bytes_length]

theorem ByteStore.readExactAt_eq_some (s : ByteStore) (off len : Nat)
    (h : len = 0 ∨ off + len ≤ s.size) :
    s.readExactAt off len = some (s.bytes off len) := by
  simp [ByteStore.readExactAt, h]

theorem ByteStore.bytes_add (s : ByteStore) (off a b : Nat) :
    s.bytes off (a + b) = s.bytes off a ++ s.bytes (off + a) b := by
  induction a generalizing off with
  | zero => simp [ByteStore.bytes]
  | succ a ih =>
    have : a + 1 + b = (a + b) + 1 := by omega
    rw [this]
    simp only [ByteStore.bytes, ih, List.cons_append]
    have : off + 1 + a = off + (a + 1) := by omega
    rw [this]

/-! ## VDI read lemmas -/

theorem VdiDisk.readAtGo_zero_want (d : VdiDisk) (fuel pos : Nat) :
    d.readAtGo fuel pos 0 = [] := by
  cases fuel <;> simp [VdiDisk.readAtGo]

theorem Nat.div_add_within (bs pos n : Nat) (hbs : 0 < bs)
    (h : pos % bs + n < bs) : (pos + n) / bs = pos / bs := by
  conv_lhs => rw [← Nat.div_add_mod pos bs]
  rw [Nat.add_assoc, Nat.mul_add_div hbs, Nat.div_eq_of_lt h, Nat.add_zero]

theorem Nat.mod_add_within (bs pos n : Nat) (hbs : 0 < bs)
    (h : pos % bs + n < bs) : (pos + n) % bs = pos % bs + n := by
  conv_lhs => rw [← Nat.div_add_mod pos bs]
  rw [Nat.add_assoc, Nat.mul_add_mod, Nat.mod_eq_of_lt h]

/-- A read confined to a single block: zeros for an unallocated block, the
backing bytes at `file_offset + pos % block_size` for an allocated one. -/
theorem VdiDisk.readAt_within_block (d : VdiDisk) (pos len : Nat)
    (hbs : 0 < d.block_size)
    (hbi : pos / d.block_size < d.block_offsets.length)
    (hlen : len ≤ d.block_size - pos % d.block_size) :
    d.readAt pos len =
      match d.block_offsets.getD (pos / d.block_size) none with
      | none => List.replicate len 0
      | some fo => d.reader.readAt (fo + pos % d.block_size) len := by
  have hbo : pos % d.block_size < d.block_size := Nat.mod_lt _ hbs
  match len with
  | 0 =>
    cases hgo : d.block_offsets.getD (pos / d.block_size) none <;>
      simp [VdiDisk.readAt, VdiDisk.readAtGo, ByteStore.readAt, ByteStore.bytes, hgo]
  | l + 1 =>
    have hto : min (l + 1) (d.block_size - pos % d.block_size) = l + 1 :=
      Nat.min_eq_left hlen
    rw [VdiDisk.readAt]
    cases hgo : d.block_offsets.getD (pos / d.block_size) none with
    | none =>
      simp only [VdiDisk.readAtGo, if_neg (Nat.succ_ne_zero l), if_pos hbi, hgo,
        hto]
      rw [Nat.sub_self, VdiDisk.readAtGo_zero_want, List.append_nil]
    | some fo =>
      simp only [VdiDisk.readAtGo, if_neg (Nat.succ_ne_zero l), if_pos hbi, hgo,
        hto]
      set chunk := d.reader.readAt (fo + pos % d.block_size) (l + 1) with hchunk
      have hclen : chunk.length = min (l + 1) (d.reader.size - (fo + pos % d.block_size)) :=
        ByteStore.readAt_length _ _ _
      by_cases hc0 : chunk.length = 0
      · rw [if_pos hc0]
        exact (List.length_eq_zero.mp hc0).symm
      · rw [if_neg hc0]
        by_cases hfull : chunk.length = l + 1
        · rw [hfull, Nat.sub_self, VdiDisk.readAtGo_zero_want, List.append_nil]
        · -- a short first read: the backing store ended inside the block,
          -- the second iteration reads zero bytes and the loop stops.
          have hlt : chunk.length < l + 1 := by
            have := hclen ▸ Nat.min_le_left (l + 1) (d.reader.size - (fo + pos % d.block_size))
            omega
          have hshort : chunk.length = d.reader.size - (fo + pos % d.block_size) := by
            omega
          have hn1 : 1 ≤ chunk.length := Nat.one_le_iff_ne_zero.mpr hc0
          have hwithin : pos % d.block_size + chunk.length < d.block_size := by omega
          obtain ⟨l', rfl⟩ : ∃ l', l = l' + 1 := ⟨l - 1, by omega⟩
          have hdiv := Nat.div_add_within d.block_size pos chunk.length hbs hwithin
          have hmod := Nat.mod_add_within d.block_size pos chunk.length hbs hwithin
          have hw0 : l' + 1 + 1 - chunk.length ≠ 0 := by omega
          simp only [VdiDisk.readAtGo, hdiv, hmod, if_neg hw0, if_pos hbi, hgo]
          have hc2 : (d.reader.readAt (fo + (pos % d.block_size + chunk.length))
              (min (l' + 1 + 1 - chunk.length)
                (d.block_size - (pos % d.block_size + chunk.length)))).length = 0 := by
            rw [ByteStore.readAt_length]
            have : d.reader.size - (fo + (pos % d.block_size + chunk.length)) = 0 := by
              omega
            omega
          rw [if_pos hc2, List.append_nil]

theorem VdiDisk.readAtGo_length_le (d : VdiDisk) :
    ∀ (fuel pos want : Nat), (d.readAtGo fuel pos want).length ≤ want := by
  intro fuel
  induction fuel with
  | zero => intro pos want; simp [VdiDisk.readAtGo]
  | succ fuel ih =>
    intro pos want
    simp only [VdiDisk.readAtGo]
    split
    · simp
    · split
      · split
        · rename_i fo heq
          split
          · simp
          · rename_i hne
            have h1 := ih (pos + (d.reader.readAt
                (fo + pos % d.block_size)
                (min want (d.block_size - pos % d.block_size))).length)
              (want - (d.reader.readAt (fo + pos % d.block_size)
                (min want (d.block_size - pos % d.block_size))).length)
            have h2 : (d.reader.readAt (fo + pos % d.block_size)
                (min want (d.block_size - pos % d.block_size))).length ≤ want := by
              rw [ByteStore.readAt_length]; omega
            simp only [List.length_append]
            omega
        · have h1 := ih (pos + min want (d.block_size - pos % d.block_size))
            (want - min want (d.block_size - pos % d.block_size))
          simp only [List.length_append, List.length_replicate]
          omega
      · simp

theorem VdiDisk.readAt_length_le (d : VdiDisk) (pos len : Nat) :
    (d.readAt pos len).length ≤ len :=
  d.readAtGo_length_le len pos len

/-- A read of a non-empty buffer produces no bytes only when the block index
is past the allocation table, or the block is allocated and its resolved file
offset is at or past the end of the backing store. -/
theorem VdiDisk.readAt_eq_nil_cases (d : VdiDisk) (pos len : Nat)
    (hbs : 0 < d.block_size) (hlen : 0 < len) (h : d.readAt pos len = []) :
    d.block_offsets.length ≤ pos / d.block_size ∨
    ∃ fo, d.block_offsets.getD (pos / d.block_size) none = some fo ∧
      d.reader.size ≤ fo + pos % d.block_size := by
  have hbo : pos % d.block_size < d.block_size := Nat.mod_lt _ hbs
  match len, hlen with
  | l + 1, _ =>
    rw [VdiDisk.readAt] at h
    simp only [VdiDisk.readAtGo, if_neg (Nat.succ_ne_zero l)] at h
    by_cases hbi : pos / d.block_size < d.block_offsets.length
    · rw [if_pos hbi] at h
      cases hgo : d.block_offsets.getD (pos / d.block_size) none with
      | none =>
        exfalso
        simp only [hgo] at h
        have : min (l + 1) (d.block_size - pos % d.block_size) ≠ 0 := by omega
        simp only [List.append_eq_nil, List.replicate_eq_nil_iff] at h
        exact this h.1
      | some fo =>
        simp only [hgo] at h
        refine Or.inr ⟨fo, rfl, ?_⟩
        by_cases hc0 : (d.reader.readAt (fo + pos % d.block_size)
            (min (l + 1) (d.block_size - pos % d.block_size))).length = 0
        · have := hc0
          rw [ByteStore.readAt_length] at this
          omega
        · exfalso
          rw [if_neg hc0] at h
          have hnil := (List.append_eq_nil.mp h).1
          exact hc0 (by rw [hnil]; rfl)
    · exact Or.inl (Nat.le_of_not_lt hbi)

/-- Destructuring a successful `VdiDisk::open`. -/
theorem VdiDisk.openDisk_eq (header : VdiHeader) (reader : ByteStore)
    (d : VdiDisk) (h : VdiDisk.openDisk header reader = some d) :
    d.header = header ∧ d.block_size = header.block_size ∧ d.reader = reader ∧
    d.position = 0 ∧
    d.block_offsets = (List.range header.blocks_in_image).map (fun i =>
      let loc := reader.le32 (header.block_offsets_offset + 4 * i)
      if loc = 0xFFFFFFFF then none
      else some (header.data_offset + loc * header.block_size)) := by
  unfold VdiDisk.openDisk at h
  split at h
  · split at h
    · injection h with h
      subst h
      exact ⟨rfl, rfl, rfl, rfl, rfl⟩
    · exact absurd h (by simp)
  · exact absurd h (by simp)

/-- Claim C10.  For every buffer, `VdiDisk::write` returns an error of kind
`Unsupported` and writes nothing (header, allocation table, backing store and
cursor are unchanged), while `VdiDisk::flush` always returns `Ok` and changes
nothing either. -/
theorem C10_write_unsupported_flush_ok (d : VdiDisk) (buf : List Nat) :
    (d.write buf).1 = Except.error IoErrorKind.unsupported ∧
    (d.write buf).2.header = d.header ∧
    (d.write buf).2.block_offsets = d.block_offsets ∧
    (d.write buf).2.reader = d.reader ∧
    (d.write buf).2.position = d.position ∧
    d.flush = (Except.ok (), d) :=
  ⟨rfl, rfl, rfl, rfl, rfl, rfl⟩

/-- Claim C9.  For both `Slice` and `OwnedSlice`, `seek` succeeds exactly when
the computed target position is at most `range.end` (the absolute end offset,
not the slice length `range.end - range.start`); consequently, when
`range.start > 0`, every target in `(len, range.end]` — beyond the slice's
logical length — is accepted and becomes the cursor. -/
theorem C9_slice_seek_accepts_absolute_end (s : Slice) (t : OwnedSlice)
    (sf : SeekFrom) :
    ((s.seek sf).1.isOk = true ↔ s.seekTarget sf ≤ s.rangeEnd) ∧
    ((t.seek sf).1.isOk = true ↔ t.seekTarget sf ≤ t.rangeEnd) ∧
    (∀ p : Nat, s.rangeEnd - s.rangeStart < p → p ≤ s.rangeEnd →
      s.seek (SeekFrom.start p) = (Except.ok p, { s with pos := p })) ∧
    (∀ p : Nat, t.rangeEnd - t.rangeStart < p → p ≤ t.rangeEnd →
      t.seek (SeekFrom.start p) = (Except.ok p, { t with pos := p })) := by
  refine ⟨?_, ?_, ?_, ?_⟩
  · have hdef : s.seek sf = (if s.seekTarget sf > s.rangeEnd then
        (Except.error IoErrorKind.invalidInput, s)
      else (Except.ok (s.seekTarget sf), { s with pos := s.seekTarget sf })) := rfl
    rw [hdef]
    by_cases hgt : s.seekTarget sf > s.rangeEnd
    · rw [if_pos hgt]; simp [Except.isOk, Except.toBool]; omega
    · rw [if_neg hgt]; simp [Except.isOk, Except.toBool]; omega
  · have hdef : t.seek sf = (if t.seekTarget sf > t.rangeEnd then
        (Except.error IoErrorKind.invalidInput, t)
      else (Except.ok (t.seekTarget sf), { t with pos := t.seekTarget sf })) := rfl
    rw [hdef]
    by_cases hgt : t.seekTarget sf > t.rangeEnd
    · rw [if_pos hgt]; simp [Except.isOk, Except.toBool]; omega
    · rw [if_neg hgt]; simp [Except.isOk, Except.toBool]; omega
  · intro p _ hle
    unfold Slice.seek
    rw [if_neg (by simp [Slice.seekTarget]; omega)]
    simp [Slice.seekTarget]
  · intro p _ hle
    unfold OwnedSlice.seek
    rw [if_neg (by simp [OwnedSlice.seekTarget]; omega)]
    simp [OwnedSlice.seekTarget]

/-- Witness for C9: on a slice over `[4, 10)` (length 6) the out-of-length
target 8 is accepted by `seek(Start(8))` on both flavours. -/
theorem C9_witness :
    (Slice.seek ⟨vdiDiskD, 4, 10, 0⟩ (SeekFrom.start 8) =
      (Except.ok 8, ⟨vdiDiskD, 4, 10, 8⟩)) ∧
    (OwnedSlice.seek ⟨vdiDiskD, 4, 10, 0⟩ (SeekFrom.start 8) =
      (Except.ok 8, ⟨vdiDiskD, 4, 10, 8⟩)) := by
  have h := C9_slice_seek_accepts_absolute_end ⟨vdiDiskD, 4, 10, 0⟩
    ⟨vdiDiskD, 4, 10, 0⟩ (SeekFrom.start 8)
  exact ⟨h.2.2.1 8 (by decide) (by decide), h.2.2.2 8 (by decide) (by decide)⟩

/-- Claim C2, amended.  For a successfully constructed VDI reader with a
nonzero block size, `read_at(pos, buf)` returns 0 bytes whenever `pos` is at
or past `blocks_in_image * block_size` — the extent actually covered by the
allocation table.  (`pos ≥ disk_size` alone does not suffice: the code checks
the block index against the table, not `disk_size`; see the
counterexample.) -/
theorem C2_read_past_table_is_eof (header : VdiHeader) (reader : ByteStore)
    (d : VdiDisk) (pos len : Nat)
    (hopen : VdiDisk.openDisk header reader = some d)
    (hbs : 0 < header.block_size)
    (hpos : header.blocks_in_image * header.block_size ≤ pos) :
    d.readAt pos len = [] := by
  obtain ⟨-, hbsz, -, -, hoff⟩ := VdiDisk.openDisk_eq header reader d hopen
  cases len with
  | zero => rfl
  | succ l =>
    rw [VdiDisk.readAt]
    simp only [VdiDisk.readAtGo, if_neg (Nat.succ_ne_zero l)]
    rw [if_neg ?_]
    rw [hbsz, hoff, List.length_map, List.length_range]
    rw [Nat.not_lt, Nat.le_div_iff_mul_le hbs]
    exact hpos

/-- Counterexample to C2 as stated: `open` accepts a header whose `disk_size`
is 0 while its allocation table still covers one (unallocated) block; a read
at position 0 — which is `≥ disk_size` — produces one zero byte instead of
EOF. -/
theorem C2_counterexample :
    VdiDisk.openDisk vdiHeaderB vdiFileB = some vdiDiskB ∧
    vdiDiskB.header.disk_size = 0 ∧
    vdiDiskB.readAt 0 1 = [0] :=
  ⟨rfl, rfl, by decide⟩

/-- Witness for the amended C2 at the same concrete disk: position 4 is past
the one-block table (`1 * 4` bytes), so a 3-byte read returns nothing. -/
theorem C2_witness :
    VdiDisk.openDisk vdiHeaderB vdiFileB = some vdiDiskB ∧
    vdiDiskB.readAt 4 3 = [] :=
  ⟨rfl, C2_read_past_table_is_eof vdiHeaderB vdiFileB vdiDiskB 4 3 rfl
    (by decide) (by decide)⟩

/-- Claim C3.  For a successfully constructed VDI reader, a read confined to
the block `i = pos / block_size` (with `i < blocks_in_image`) produces all
`0x00` bytes when allocation-table entry `i` is the sentinel `0xFFFFFFFF`,
and otherwise the backing file's bytes at
`data_offset + entry * block_size + pos % block_size`. -/
theorem C3_block_translation (header : VdiHeader) (reader : ByteStore)
    (d : VdiDisk) (pos len v : Nat)
    (hopen : VdiDisk.openDisk header reader = some d)
    (hbs : 0 < header.block_size)
    (hbi : pos / header.block_size < header.blocks_in_image)
    (hlen : len ≤ header.block_size - pos % header.block_size)
    (hv : reader.le32 (header.block_offsets_offset + 4 * (pos / header.block_size)) = v) :
    d.readAt pos len =
      if v = 0xFFFFFFFF then List.replicate len 0
      else reader.readAt
        (header.data_offset + v * header.block_size + pos % header.block_size) len := by
  obtain ⟨-, hbsz, hrdr, -, hoff⟩ := VdiDisk.openDisk_eq header reader d hopen
  have hgo : d.block_offsets.getD (pos / d.block_size) none =
      (if v = 0xFFFFFFFF then none
       else some (header.data_offset + v * header.block_size)) := by
    rw [hoff, hbsz]
    rw [List.getD_eq_getElem?_getD, List.getElem?_map, List.getElem?_range hbi]
    simp [hv]
  have h := d.readAt_within_block pos len (hbsz ▸ hbs)
    (by rw [hoff, List.length_map, List.length_range, hbsz]; exact hbi)
    (hbsz ▸ hlen)
  rw [h, hgo]
  by_cases hvv : v = 0xFFFFFFFF
  · rw [if_pos hvv, if_pos hvv]
  · rw [if_neg hvv, if_neg hvv, hrdr, hbsz]

/-- Witness for C3, on the spec's concrete scenario (allocation table
`[0xFFFFFFFF, 0, 0xFFFFFFFF, 1]`, `data_offset = 0x200000`,
`block_size = 1 MiB`): a 16-byte read at 0 is all zeros; a 4-byte read at
1048576 returns the backing bytes at `0x200000`. -/
theorem C3_witness :
    VdiDisk.openDisk vdiHeaderC vdiFileC = some vdiDiskC ∧
    vdiDiskC.readAt 0 16 = List.replicate 16 0 ∧
    vdiDiskC.readAt 1048576 4 = [1, 2, 3, 4] := by
  refine ⟨rfl, ?_, ?_⟩
  · have h := C3_block_translation vdiHeaderC vdiFileC vdiDiskC 0 16 0xFFFFFFFF
      rfl (by decide) (by decide) (by decide) (by decide)
    simpa using h
  · have h := C3_block_translation vdiHeaderC vdiFileC vdiDiskC 1048576 4 0
      rfl (by decide) (by decide) (by decide) (by decide)
    rw [h]
    decide

/-! ## C1: exists / metadata / find_inode_by_path -/

/-- Claim C1, amended.  `exists(p)` holds exactly when `find_inode_by_path(p)`
succeeds; `metadata(p)` is `Some` exactly when `find_inode_by_path(p)`
succeeds and additionally the resolved inode number can itself be read
(`read_inode` succeeds).  When path resolution succeeds but the final
`read_inode` fails, `exists` is true while `metadata` is `none`. -/
theorem C1_exists_metadata (r : Ext4Reader) (fuel : Nat)
    (p : List (List Nat)) :
    (r.existsPath fuel p = true ↔ (r.find_inode_by_path fuel p).isOk = true) ∧
    ((r.metadata fuel p).isSome = true ↔
      ∃ n, r.find_inode_by_path fuel p = Except.ok n ∧
        (r.read_inode n).isOk = true) := by
  constructor
  · exact Iff.rfl
  · unfold Ext4Reader.metadata
    cases hfind : r.find_inode_by_path fuel p with
    | error e =>
      simp [Except.toOption, Option.bind, hfind]
    | ok n =>
      cases hread : r.read_inode n with
      | error e =>
        simp [Except.toOption, Option.bind, hfind, hread, Except.isOk, Except.toBool]
      | ok inode =>
        simp [Except.toOption, Option.bind, hfind, hread, Except.isOk, Except.toBool]

/-- Counterexample to C1 as stated: on an image whose superblock declares
zero blocks (so the group-descriptor table is empty), `exists("/")` is true
(the root path resolves to inode 2 without any read) while `metadata("/")`
is `none`, because `read_inode(2)` fails. -/
theorem C1_counterexample :
    Ext4Reader.new imgB = Except.ok rdrB ∧
    rdrB.existsPath 1 [] = true ∧
    rdrB.metadata 1 [] = none :=
  ⟨rfl, by decide, by decide⟩

/-- Witness for the amended C1 on the same image: resolution of the root path
succeeds, `read_inode(2)` fails, and the amended equivalences instantiate. -/
theorem C1_witness :
    (rdrB.existsPath 1 [] = true ↔ (rdrB.find_inode_by_path 1 []).isOk = true) ∧
    ((rdrB.metadata 1 []).isSome = true ↔
      ∃ n, rdrB.find_inode_by_path 1 [] = Except.ok n ∧
        (rdrB.read_inode n).isOk = true) :=
  C1_exists_metadata rdrB 1 []

/-! ## C6: malformed directory records -/

/-- Claim C6, evaluated at the claim's failing input.  The directory block of
image D opens with a record whose `rec_len` is 4 and `name_len` is 0, so
`name_len + 8 > rec_len` and the claim demands a malformed-directory-entry
error; the scan instead succeeds (and reports no entries): the Rust check
computes `rec_len as usize - 8`, which wraps around for `rec_len < 8`, so the
`name_len` bound is never enforced for such records. -/
theorem C6_code_bug :
    listLE16 blockD 4 = 4 ∧
    blockD.getD 6 0 + 8 > listLE16 blockD 4 ∧
    imgD.readExactAt 1024 1024 = some blockD ∧
    rdrD.read_directory_block 1 1024 [] = Except.ok [] :=
  ⟨by decide, by decide, by decide, by decide⟩

/-! ## C7: directory listings -/

theorem nameLe_total (a b : List Nat) : (nameLe a b || nameLe b a) = true := by
  induction a generalizing b with
  | nil => simp [nameLe]
  | cons x xs ih =>
    cases b with
    | nil => simp [nameLe]
    | cons y ys =>
      by_cases hxy : x < y
      · simp [nameLe, hxy]
      · by_cases hyx : y < x
        · simp [nameLe, hxy, hyx]
        · simp [nameLe, hxy, hyx, Nat.not_lt.mp hxy, Nat.not_lt.mp hyx]
          simpa using ih ys

theorem nameLe_trans (a b c : List Nat) (hab : nameLe a b = true)
    (hbc : nameLe b c = true) : nameLe a c = true := by
  induction a generalizing b c with
  | nil => simp [nameLe]
  | cons x xs ih =>
    cases b with
    | nil => simp [nameLe] at hab
    | cons y ys =>
      cases c with
      | nil => simp [nameLe] at hbc
      | cons z zs =>
        simp only [nameLe] at hab hbc ⊢
        by_cases hxy : x < y
        · by_cases hyz : y < z
          · rw [if_pos (Nat.lt_trans hxy hyz)]
          · simp only [if_neg hyz] at hbc
            by_cases hzy : z < y
            · simp [hzy] at hbc
            · have : y = z := by omega
              rw [if_pos (this ▸ hxy)]
        · simp only [if_neg hxy] at hab
          by_cases hyx : y < x
          · simp [hyx] at hab
          · have hxyeq : x = y := by omega
            rw [if_neg hyx] at hab
            by_cases hyz : y < z
            · rw [if_pos (hxyeq ▸ hyz)]
            · simp only [if_neg hyz] at hbc
              by_cases hzy : z < y
              · simp [hzy] at hbc
              · rw [if_neg hzy] at hbc
                have hyzeq : y = z := by omega
                subst hxyeq; subst hyzeq
                simp only [if_neg (Nat.lt_irrefl x)]
                exact ih ys zs hab hbc

/-- Claim C7, amended.  Every successful `read_dir` listing is sorted
ascending by name (non-strictly: byte-equal duplicate names are kept, in
encounter order) and contains neither `.` nor `..`.  Strictness fails
exactly when a directory holds two records with the same name; see the
counterexample. -/
theorem C7_read_dir_sorted_no_dots (r : Ext4Reader) (fuel : Nat)
    (path : List (List Nat)) (l : List DirectoryEntry)
    (h : r.read_dir fuel path = Except.ok l) :
    sortedByName l ∧ ∀ e ∈ l, e.name ≠ [46] ∧ e.name ≠ [46, 46] := by
  unfold Ext4Reader.read_dir at h
  cases hfind : r.find_inode_by_path fuel path with
  | error e => rw [hfind] at h; simp [Bind.bind, Except.bind] at h
  | ok n =>
    rw [hfind] at h
    simp only [Bind.bind, Except.bind] at h
    cases hread : r.read_inode n with
    | error e => rw [hread] at h; simp at h
    | ok inode =>
      rw [hread] at h
      dsimp only at h
      split at h
      · simp at h
      · cases hent : r.read_directory_entries fuel inode with
        | error e => rw [hent] at h; simp at h
        | ok entries =>
          rw [hent] at h
          injection h with h
          subst h
          constructor
          · unfold sortedByName
            exact @List.sorted_mergeSort DirectoryEntry
              (fun a b => nameLe a.name b.name)
              (fun a b c hab hbc => nameLe_trans a.name b.name c.name hab hbc)
              (fun a b => nameLe_total a.name b.name) _
          · intro e he
            rw [List.mem_mergeSort] at he
            obtain ⟨x, hx, rfl⟩ := List.mem_map.mp he
            have hp := (List.mem_filter.mp hx).2
            simp only [decide_eq_true_eq] at hp
            exact ⟨hp.1, hp.2⟩

unseal List.merge List.mergeSort in
/-- Counterexample to strictness in C7: image A's root directory holds two
records both named `"a"`; `read_dir("/")` succeeds with those two equal
names, so the listing is not *strictly* sorted. -/
theorem C7_counterexample :
    Ext4Reader.new imgA = Except.ok rdrA ∧
    rdrA.read_dir 1 [] = Except.ok [entryA, entryA] ∧
    ¬ strictlySortedByName [entryA, entryA] := by
  refine ⟨rfl, by decide, ?_⟩
  unfold strictlySortedByName
  decide

unseal List.merge List.mergeSort in
/-- Witness for the amended C7 at image A's listing. -/
theorem C7_witness :
    sortedByName [entryA, entryA] ∧
    ∀ e ∈ [entryA, entryA], e.name ≠ [46] ∧ e.name ≠ [46, 46] :=
  C7_read_dir_sorted_no_dots rdrA 1 [] [entryA, entryA] (by decide)

/-! ## C5: extent walker block counts -/

theorem extentLeafBlocks_length (data : List Nat) (ixs : List Nat) :
    (extentLeafBlocks data ixs).length = leafLengthSum data ixs := by
  induction ixs with
  | nil => rfl
  | cons i rest ih =>
    simp only [extentLeafBlocks, leafLengthSum, List.length_append, ih]
    by_cases hb : 3 + i * 3 + 2 < data.length
    · simp [hb]
    · simp [hb]

theorem extentIndexLoop_valid (r : Ext4Reader) (fuel : Nat) (data : List Nat)
    (ih : ∀ d, validExtentNode r fuel d = true →
      ∃ blocks, r.read_extent_blocks_recursive fuel d = Except.ok blocks ∧
        blocks.length = extentTreeLeafSum r fuel d)
    (ixs : List Nat)
    (hixs : ∀ i ∈ ixs,
      extentIndexPhys data i * r.block_size + r.block_size ≤ r.reader.size ∧
      validExtentNode r fuel
        (bytesToU32 (r.reader.bytes
          (extentIndexPhys data i * r.block_size) r.block_size)) = true) :
    ∃ bl, extentIndexLoop r (r.read_extent_blocks_recursive fuel) data ixs =
        Except.ok bl ∧
      bl.length = indexLengthSum r (extentTreeLeafSum r fuel) data ixs := by
  induction ixs with
  | nil => exact ⟨[], rfl, rfl⟩
  | cons i rest iht =>
    obtain ⟨⟨hrd, hvc⟩, hrest⟩ :
        (extentIndexPhys data i * r.block_size + r.block_size ≤ r.reader.size ∧
          validExtentNode r fuel (bytesToU32 (r.reader.bytes
            (extentIndexPhys data i * r.block_size) r.block_size)) = true) ∧
        ∀ j ∈ rest,
          extentIndexPhys data j * r.block_size + r.block_size ≤ r.reader.size ∧
          validExtentNode r fuel (bytesToU32 (r.reader.bytes
            (extentIndexPhys data j * r.block_size) r.block_size)) = true :=
      ⟨hixs i (List.mem_cons_self i rest), fun j hj => hixs j (List.mem_cons_of_mem i hj)⟩
    obtain ⟨bl, hbl, hlen⟩ := iht hrest
    obtain ⟨sub, hsub, hsublen⟩ := ih _ hvc
    by_cases hb : 3 + i * 3 + 2 < data.length
    · refine ⟨sub ++ bl, ?_, ?_⟩
      · simp only [extentIndexLoop, if_pos hb]
        rw [show (data.getD (3 + i * 3 + 2) 0 % 65536 * 2 ^ 32 +
            data.getD (3 + i * 3 + 1) 0) = extentIndexPhys data i from rfl]
        rw [ByteStore.readExactAt_eq_some _ _ _ (Or.inr hrd)]
        dsimp only
        rw [hsub]
        simp only [Bind.bind, Except.bind]
        rw [hbl]
      · simp only [indexLengthSum, if_pos hb, List.length_append, hsublen, hlen]
    · refine ⟨bl, ?_, ?_⟩
      · simp only [extentIndexLoop, if_neg hb]
        exact hbl
      · simp only [indexLengthSum, if_neg hb, hlen, Nat.zero_add]

/-- Claim C5.  For every valid extent tree of any depth (magic `0xF30A` at each
node, every entry record inside the node's word buffer, children readable),
the walker succeeds and the flat physical-block list it returns has length
equal to the sum of the `length` fields over all depth-0 entries reachable
from the root. -/
theorem C5_extent_block_count (r : Ext4Reader) :
    ∀ (fuel : Nat) (data : List Nat), validExtentNode r fuel data = true →
      ∃ blocks, r.read_extent_blocks_recursive fuel data = Except.ok blocks ∧
        blocks.length = extentTreeLeafSum r fuel data := by
  intro fuel
  induction fuel with
  | zero =>
    intro data hv
    unfold validExtentNode at hv
    simp only [Bool.and_eq_true, decide_eq_true_eq] at hv
    obtain ⟨⟨⟨hlen2, hmagic⟩, hbounds⟩, hdepth⟩ := hv
    by_cases hd : extentDepth data = 0
    · refine ⟨extentLeafBlocks data (List.range (extentEntries data)), ?_, ?_⟩
      · unfold Ext4Reader.read_extent_blocks_recursive
        rw [if_neg (by rw [hmagic]; exact fun hc => hc rfl), if_pos hd]
      · rw [extentLeafBlocks_length]
        unfold extentTreeLeafSum
        rw [if_pos hd]
    · rw [if_neg hd] at hdepth
      exact absurd hdepth (by simp)
  | succ fuel ih =>
    intro data hv
    unfold validExtentNode at hv
    simp only [Bool.and_eq_true, decide_eq_true_eq] at hv
    obtain ⟨⟨⟨hlen2, hmagic⟩, hbounds⟩, hdepth⟩ := hv
    by_cases hd : extentDepth data = 0
    · refine ⟨extentLeafBlocks data (List.range (extentEntries data)), ?_, ?_⟩
      · unfold Ext4Reader.read_extent_blocks_recursive
        rw [if_neg (by rw [hmagic]; exact fun hc => hc rfl), if_pos hd]
      · rw [extentLeafBlocks_length]
        unfold extentTreeLeafSum
        rw [if_pos hd]
    · rw [if_neg hd] at hdepth
      rw [List.all_eq_true] at hdepth
      have hixs : ∀ i ∈ List.range (extentEntries data),
          extentIndexPhys data i * r.block_size + r.block_size ≤ r.reader.size ∧
          validExtentNode r fuel (bytesToU32 (r.reader.bytes
            (extentIndexPhys data i * r.block_size) r.block_size)) = true := by
        intro i hi
        have := hdepth i hi
        simp only [Bool.and_eq_true, decide_eq_true_eq] at this
        exact this
      obtain ⟨bl, hbl, hlen⟩ := extentIndexLoop_valid r fuel data ih
        (List.range (extentEntries data)) hixs
      refine ⟨bl, ?_, ?_⟩
      · unfold Ext4Reader.read_extent_blocks_recursive
        rw [if_neg (by rw [hmagic]; exact fun hc => hc rfl), if_neg hd]
        exact hbl
      · rw [hlen]
        unfold extentTreeLeafSum
        rw [if_neg hd]

unseal List.merge List.mergeSort in
/-- Witness for C5 on a concrete depth-1 tree: the root holds one index
entry pointing at a valid empty leaf node, so the walker returns a list of
length 0, matching the (empty) leaf-length sum. -/
theorem C5_witness :
    validExtentNode rdrE 1 rootE = true ∧
    ∃ blocks, rdrE.read_extent_blocks_recursive 1 rootE = Except.ok blocks ∧
      blocks.length = extentTreeLeafSum rdrE 1 rootE :=
  ⟨by decide, C5_extent_block_count rdrE 1 rootE (by decide)⟩

/-! ## C4: read-count bounds -/

theorem ByteStore.readExactAt_some_length (s : ByteStore) (off len : Nat)
    (l : List Nat) (h : s.readExactAt off len = some l) : l.length = len := by
  unfold ByteStore.readExactAt at h
  split at h
  · injection h with h
    subst h
    exact ByteStore.bytes_length s off len
  · exact Option.noConfusion h

theorem readBlocksLoop_length_le (r : Ext4Reader) (sb so : Nat) :
    ∀ (blocks : List Nat) (idx remaining : Nat) (data : List Nat),
      readBlocksLoop r sb so blocks idx remaining = Except.ok data →
      data.length ≤ remaining := by
  intro blocks
  induction blocks with
  | nil =>
    intro idx rem data h
    injection h with h
    subst h
    simp
  | cons b rest ih =>
    intro idx rem data h
    unfold readBlocksLoop at h
    split at h
    · exact Nat.le_trans (ih _ _ _ h) (Nat.le_refl rem)
    · split at h
      · injection h with h
        subst h
        simp
      · set sk := (if idx = sb then so else 0) with hsk
        dsimp only at h
        split at h
        · exact Except.noConfusion h
        · rename_i block_data hre
          simp only [Bind.bind, Except.bind] at h
          split at h
          · exact Except.noConfusion h
          · rename_i rd hrec
            injection h with h
            subst h
            have hch := ByteStore.readExactAt_some_length _ _ _ _ hre
            have hrd := ih _ _ _ hrec
            simp only [List.length_append, hch]
            omega

theorem read_file_data_range_length_le (r : Ext4Reader) (fuel : Nat)
    (inode : Inode) (start length : Nat) (data : List Nat)
    (h : r.read_file_data_range fuel inode start length = Except.ok data) :
    data.length ≤ length := by
  unfold Ext4Reader.read_file_data_range at h
  dsimp only at h
  by_cases hs : start ≥ inode.size
  · rw [if_pos hs] at h
    injection h with h
    subst h
    simp
  · rw [if_neg hs] at h
    simp only [Bind.bind, Except.bind] at h
    by_cases hfl : inode.i_flags &&& EXT4_EXTENTS_FL ≠ 0
    · rw [if_pos hfl] at h
      cases hbl : r.read_extent_blocks fuel inode with
      | error e => rw [hbl] at h; exact Except.noConfusion h
      | ok blocks =>
        rw [hbl] at h
        dsimp only at h
        have := readBlocksLoop_length_le r (start / r.block_size)
          (start % r.block_size) blocks 0 (min length (inode.size - start)) data h
        omega
    · rw [if_neg hfl] at h
      have := readBlocksLoop_length_le r (start / r.block_size)
        (start % r.block_size) (directBlocks inode) 0
        (min length (inode.size - start)) data h
      omega

theorem fileRead_spec (r : Ext4Reader) (fuel : Nat) (f : Ext4FileReader)
    (len : Nat) (data : List Nat) (f' : Ext4FileReader)
    (h : Ext4FileReader.read r fuel f len = Except.ok (data, f')) :
    data.length ≤ len ∧
    (0 < len → data = [] →
      f.size ≤ f.position ∨
      r.read_file_data_range fuel f.inode f.position
        (min len (f.size - f.position)) = Except.ok []) := by
  unfold Ext4FileReader.read at h
  by_cases hpos : f.position ≥ f.size
  · rw [if_pos hpos] at h
    injection h with h
    injection h with h1 h2
    subst h1
    exact ⟨by simp, fun _ _ => Or.inl hpos⟩
  · rw [if_neg hpos] at h
    dsimp only at h
    by_cases hto : min len (f.size - f.position) = 0
    · rw [if_pos hto] at h
      injection h with h
      injection h with h1 h2
      subst h1
      exact ⟨by simp, fun hlen _ => Or.inl (by omega)⟩
    · rw [if_neg hto] at h
      cases hr : r.read_file_data_range fuel f.inode f.position
          (min len (f.size - f.position)) with
      | error e => rw [hr] at h; exact Except.noConfusion h
      | ok d =>
        rw [hr] at h
        dsimp only at h
        injection h with h
        injection h with h1 h2
        subst h1
        refine ⟨?_, fun _ hnil => Or.inr ?_⟩
        · have := read_file_data_range_length_le r fuel f.inode f.position
            (min len (f.size - f.position)) d hr
          omega
        · rw [hnil]

/-- A read whose block index is at or past the allocation table produces no
bytes. -/
theorem VdiDisk.readAt_nil_of_table (d : VdiDisk) (pos len : Nat)
    (h : d.block_offsets.length ≤ pos / d.block_size) :
    d.readAt pos len = [] := by
  cases len with
  | zero => rfl
  | succ l =>
    rw [VdiDisk.readAt]
    simp only [VdiDisk.readAtGo, if_neg (Nat.succ_ne_zero l)]
    rw [if_neg (Nat.not_lt.mpr h)]

/-- A read of an allocated block whose resolved backing offset is at or past
the end of the backing store produces no bytes. -/
theorem VdiDisk.readAt_nil_of_backing_end (d : VdiDisk) (pos len fo : Nat)
    (hfo : d.block_offsets.getD (pos / d.block_size) none = some fo)
    (hsz : d.reader.size ≤ fo + pos % d.block_size) :
    d.readAt pos len = [] := by
  have hbi : pos / d.block_size < d.block_offsets.length := by
    by_contra hc
    rw [List.getD_eq_getElem?_getD,
      List.getElem?_eq_none (Nat.le_of_not_lt hc)] at hfo
    exact Option.noConfusion hfo
  cases len with
  | zero => rfl
  | succ l =>
    have h0 : (d.reader.readAt (fo + pos % d.block_size)
        (min (l + 1) (d.block_size - pos % d.block_size))).length = 0 := by
      rw [ByteStore.readAt_length]
      omega
    rw [VdiDisk.readAt]
    simp only [VdiDisk.readAtGo, if_neg (Nat.succ_ne_zero l), if_pos hbi, hfo]
    rw [if_pos h0]

/-- A successful stream read serves no bytes exactly when the buffer is
empty, the cursor is at or past the file size, or the resolved block-range
read yields no bytes. -/
theorem fileRead_eq_nil_iff (r : Ext4Reader) (fuel : Nat) (f : Ext4FileReader)
    (len : Nat) (data : List Nat) (f' : Ext4FileReader)
    (h : Ext4FileReader.read r fuel f len = Except.ok (data, f')) :
    data = [] ↔
      len = 0 ∨ f.size ≤ f.position ∨
      r.read_file_data_range fuel f.inode f.position
        (min len (f.size - f.position)) = Except.ok [] := by
  unfold Ext4FileReader.read at h
  by_cases hpos : f.position ≥ f.size
  · rw [if_pos hpos] at h
    injection h with h
    injection h with h1 h2
    subst h1
    exact iff_of_true rfl (Or.inr (Or.inl hpos))
  · rw [if_neg hpos] at h
    dsimp only at h
    by_cases hto : min len (f.size - f.position) = 0
    · rw [if_pos hto] at h
      injection h with h
      injection h with h1 h2
      subst h1
      exact iff_of_true rfl (Or.inl (by omega))
    · rw [if_neg hto] at h
      cases hr : r.read_file_data_range fuel f.inode f.position
          (min len (f.size - f.position)) with
      | error e => rw [hr] at h; exact Except.noConfusion h
      | ok d =>
        rw [hr] at h
        dsimp only at h
        injection h with h
        injection h with h1 h2
        subst h1
        constructor
        · intro hd
          exact Or.inr (Or.inr (by rw [hd]))
        · rintro (hc | hc | hc)
          · omega
          · omega
          · injection hc with hc

/-- Claim C4, amended.  Both positioned readers return at most `buf.len`
bytes; a returned count of 0 does not imply `pos ≥ disk_size` (resp.
`position ≥ file_size`).  Instead, for a disk with a nonzero block size, a
VDI read returns 0 bytes exactly when the buffer is empty, the position's
block index is at or past the allocation table, or the block is allocated
with its resolved backing offset at or past the end of the backing store;
and a successful stream read returns 0 bytes exactly when the buffer is
empty, the position is at or past the file size, or the resolved block-range
read yields no bytes. -/
theorem C4_read_count_bounds :
    (∀ (d : VdiDisk) (pos len : Nat), (d.readAt pos len).length ≤ len) ∧
    (∀ (d : VdiDisk) (pos len : Nat), 0 < d.block_size →
      (d.readAt pos len = [] ↔
        len = 0 ∨
        d.block_offsets.length ≤ pos / d.block_size ∨
        ∃ fo, d.block_offsets.getD (pos / d.block_size) none = some fo ∧
          d.reader.size ≤ fo + pos % d.block_size)) ∧
    (∀ (r : Ext4Reader) (fuel : Nat) (f : Ext4FileReader) (len : Nat)
        (data : List Nat) (f' : Ext4FileReader),
      Ext4FileReader.read r fuel f len = Except.ok (data, f') →
      data.length ≤ len ∧
      (data = [] ↔
        len = 0 ∨ f.size ≤ f.position ∨
        r.read_file_data_range fuel f.inode f.position
          (min len (f.size - f.position)) = Except.ok [])) := by
  refine ⟨fun d pos len => d.readAt_length_le pos len, ?_, ?_⟩
  · intro d pos len hbs
    constructor
    · intro h
      by_cases hlen : len = 0
      · exact Or.inl hlen
      · exact Or.inr
          (d.readAt_eq_nil_cases pos len hbs (Nat.pos_of_ne_zero hlen) h)
    · rintro (hc | hc | ⟨fo, hfo, hsz⟩)
      · subst hc; rfl
      · exact d.readAt_nil_of_table pos len hc
      · exact d.readAt_nil_of_backing_end pos len fo hfo hsz
  · intro r fuel f len data f' h
    exact ⟨(fileRead_spec r fuel f len data f' h).1,
      fileRead_eq_nil_iff r fuel f len data f' h⟩

/-- Counterexample to C4 as stated: its quantification includes the empty
buffer, and an empty-buffer read returns count 0 at any position — here at
position 5 of a disk whose `disk_size` is 10. -/
theorem C4_counterexample :
    vdiDiskD.readAt 5 0 = [] ∧ 5 < vdiDiskD.header.disk_size :=
  ⟨rfl, by decide⟩

/-- Witness for the amended C4: the length bound and the zero-count
equivalence at a concrete VDI read past the one-block table, and the stream
bound and equivalence at a concrete exhausted stream. -/
theorem C4_witness :
    (vdiDiskB.readAt 0 1).length ≤ 1 ∧
    (vdiDiskB.readAt 4 3 = [] ↔
      3 = 0 ∨
      vdiDiskB.block_offsets.length ≤ 4 / vdiDiskB.block_size ∨
      ∃ fo, vdiDiskB.block_offsets.getD (4 / vdiDiskB.block_size) none = some fo ∧
        vdiDiskB.reader.size ≤ fo + 4 % vdiDiskB.block_size) ∧
    ([] : List Nat).length ≤ 1 ∧
    (([] : List Nat) = [] ↔
      1 = 0 ∨ fileReaderB.size ≤ fileReaderB.position ∨
      rdrB.read_file_data_range 1 fileReaderB.inode fileReaderB.position
        (min 1 (fileReaderB.size - fileReaderB.position)) = Except.ok []) := by
  have h := C4_read_count_bounds.2.2 rdrB 1 fileReaderB 1 [] fileReaderB rfl
  exact ⟨C4_read_count_bounds.1 vdiDiskB 0 1,
    C4_read_count_bounds.2.1 vdiDiskB 4 3 (by decide), h.1, h.2⟩

/-! ## C8: seek/read round trip -/

theorem ByteStore.take_bytes (s : ByteStore) (off : Nat) :
    ∀ (n k : Nat), (s.bytes off n).take k = s.bytes off (min k n) := by
  intro n
  induction n generalizing off with
  | zero => intro k; simp [ByteStore.bytes]
  | succ n ih =>
    intro k
    cases k with
    | zero => simp [ByteStore.bytes]
    | succ k =>
      simp only [ByteStore.bytes, List.take_succ_cons, ih]
      rw [Nat.succ_min_succ]
      rfl

theorem ByteStore.drop_bytes (s : ByteStore) (off : Nat) :
    ∀ (n k : Nat), (s.bytes off n).drop k = s.bytes (off + k) (n - k) := by
  intro n
  induction n generalizing off with
  | zero => intro k; simp [ByteStore.bytes]
  | succ n ih =>
    intro k
    cases k with
    | zero => simp [ByteStore.bytes]
    | succ k =>
      simp only [ByteStore.bytes, List.drop_succ_cons, ih, Nat.succ_sub_succ]
      rw [Nat.add_assoc, Nat.add_comm 1 k]

theorem concatBlockBytes_drop (r : Ext4Reader) :
    ∀ (s : Nat) (blocks : List Nat),
      (concatBlockBytes r blocks).drop (s * r.block_size) =
        concatBlockBytes r (blocks.drop s) := by
  intro s
  induction s with
  | zero => intro blocks; simp
  | succ s ih =>
    intro blocks
    cases blocks with
    | nil => simp [concatBlockBytes]
    | cons b rest =>
      rw [List.drop_succ_cons, ← ih rest]
      rw [concatBlockBytes]
      rw [show (s + 1) * r.block_size = r.block_size + s * r.block_size by ring]
      rw [← List.drop_drop]
      congr 1
      exact List.drop_left'
        (ByteStore.bytes_length r.reader (b * r.block_size) r.block_size)

theorem readBlocksLoop_skip (r : Ext4Reader) (s o L : Nat) :
    ∀ (blocks : List Nat) (idx : Nat), idx ≤ s →
      readBlocksLoop r s o blocks idx L =
        readBlocksLoop r s o (blocks.drop (s - idx)) s L := by
  intro blocks
  induction blocks with
  | nil => intro idx _; simp [readBlocksLoop]
  | cons b rest ih =>
    intro idx hle
    by_cases hlt : idx < s
    · have h1 : readBlocksLoop r s o (b :: rest) idx L =
          readBlocksLoop r s o rest (idx + 1) L := by
        conv_lhs => unfold readBlocksLoop
        rw [if_pos hlt]
      rw [h1, ih (idx + 1) hlt]
      congr 1
      have : s - idx = (s - (idx + 1)) + 1 := by omega
      rw [this, List.drop_succ_cons]
    · have : idx = s := by omega
      subst this
      rw [Nat.sub_self]
      rfl

theorem readBlocksLoop_past_start (r : Ext4Reader) (s o : Nat) :
    ∀ (blocks : List Nat) (idx L : Nat), s < idx →
      (∀ b ∈ blocks, b * r.block_size + r.block_size ≤ r.reader.size) →
      readBlocksLoop r s o blocks idx L =
        Except.ok ((concatBlockBytes r blocks).take L) := by
  intro blocks
  induction blocks with
  | nil => intro idx L _ _; simp [readBlocksLoop, concatBlockBytes]
  | cons b rest ih =>
    intro idx L hgt hrd
    unfold readBlocksLoop
    rw [if_neg (by omega)]
    by_cases hL : L = 0
    · rw [if_pos hL, hL]
      rfl
    · rw [if_neg hL]
      have hsk : (if idx = s then o else 0) = 0 := by
        rw [if_neg (by omega)]
      dsimp only
      rw [hsk]
      have hb := hrd b (List.mem_cons_self b rest)
      rw [ByteStore.readExactAt_eq_some _ _ _ (Or.inr (by omega))]
      dsimp only
      rw [ih (idx + 1) (L - min (r.block_size - 0) L) (by omega)
        (fun x hx => hrd x (List.mem_cons_of_mem b hx))]
      simp only [Bind.bind, Except.bind]
      rw [concatBlockBytes]
      rw [List.take_append_eq_append_take]
      rw [ByteStore.bytes_length]
      rw [ByteStore.take_bytes]
      rw [show b * r.block_size + 0 = b * r.block_size by omega]
      rw [Nat.sub_zero, Nat.min_comm r.block_size L]
      rw [show L - L ⊓ r.block_size = L - r.block_size by omega]

theorem readBlocksLoop_at_start (r : Ext4Reader) (s o : Nat) (hbs : 0 < r.block_size)
    (ho : o < r.block_size) :
    ∀ (blocks : List Nat) (L : Nat),
      (∀ b ∈ blocks, b * r.block_size + r.block_size ≤ r.reader.size) →
      readBlocksLoop r s o blocks s L =
        Except.ok (((concatBlockBytes r blocks).drop o).take L) := by
  intro blocks L hrd
  cases blocks with
  | nil => simp [readBlocksLoop, concatBlockBytes]
  | cons b rest =>
    unfold readBlocksLoop
    rw [if_neg (by omega)]
    by_cases hL : L = 0
    · rw [if_pos hL, hL]
      simp
    · rw [if_neg hL]
      have hsk : (if s = s then o else 0) = o := by rw [if_pos rfl]
      dsimp only
      rw [hsk]
      have hb := hrd b (List.mem_cons_self b rest)
      rw [ByteStore.readExactAt_eq_some _ _ _ (Or.inr (by omega))]
      dsimp only
      rw [readBlocksLoop_past_start r s o rest (s + 1) (L - min (r.block_size - o) L)
        (by omega) (fun x hx => hrd x (List.mem_cons_of_mem b hx))]
      simp only [Bind.bind, Except.bind]
      rw [concatBlockBytes]
      rw [List.drop_append_eq_append_drop]
      rw [ByteStore.bytes_length, ByteStore.drop_bytes]
      rw [show o - r.block_size = 0 by omega, List.drop_zero]
      rw [List.take_append_eq_append_take]
      rw [ByteStore.bytes_length, ByteStore.take_bytes]
      rw [Nat.min_comm (r.block_size - o) L]
      rw [show L - L ⊓ (r.block_size - o) = L - (r.block_size - o) by omega]

/-- `read_file_data_range` on a file whose blocks all lie inside the backing
store returns a slice of the blocks' bytes laid end to end. -/
theorem read_file_data_range_eq (r : Ext4Reader) (fuel : Nat) (inode : Inode)
    (start length : Nat) (blocks : List Nat)
    (hbl : r.fileBlocks fuel inode = Except.ok blocks)
    (hrd : ∀ b ∈ blocks, b * r.block_size + r.block_size ≤ r.reader.size)
    (hbs : 0 < r.block_size)
    (hs : start < inode.size) :
    r.read_file_data_range fuel inode start length =
      Except.ok (((concatBlockBytes r blocks).drop start).take
        (min length (inode.size - start))) := by
  unfold Ext4Reader.read_file_data_range
  dsimp only
  rw [if_neg (by omega)]
  simp only [Bind.bind, Except.bind]
  unfold Ext4Reader.fileBlocks at hbl
  by_cases hfl : inode.i_flags &&& EXT4_EXTENTS_FL ≠ 0
  · rw [if_pos hfl] at hbl ⊢
    rw [hbl]
    dsimp only
    rw [readBlocksLoop_skip r (start / r.block_size) (start % r.block_size)
      (min length (inode.size - start)) blocks 0 (Nat.zero_le _), Nat.sub_zero]
    rw [readBlocksLoop_at_start r (start / r.block_size) (start % r.block_size)
      hbs (Nat.mod_lt start hbs) (blocks.drop (start / r.block_size))
      (min length (inode.size - start))
      (fun x hx => hrd x (List.mem_of_mem_drop hx))]
    rw [← concatBlockBytes_drop, List.drop_drop]
    rw [show start / r.block_size * r.block_size + start % r.block_size = start by
      rw [Nat.mul_comm]
      exact Nat.div_add_mod start r.block_size]
  · rw [if_neg hfl] at hbl ⊢
    injection hbl with hbl
    subst hbl
    rw [readBlocksLoop_skip r (start / r.block_size) (start % r.block_size)
      (min length (inode.size - start)) (directBlocks inode) 0 (Nat.zero_le _),
      Nat.sub_zero]
    rw [readBlocksLoop_at_start r (start / r.block_size) (start % r.block_size)
      hbs (Nat.mod_lt start hbs) ((directBlocks inode).drop (start / r.block_size))
      (min length (inode.size - start))
      (fun x hx => hrd x (List.mem_of_mem_drop hx))]
    rw [← concatBlockBytes_drop, List.drop_drop]
    rw [show start / r.block_size * r.block_size + start % r.block_size = start by
      rw [Nat.mul_comm]
      exact Nat.div_add_mod start r.block_size]

/-- Destructuring a successful `Ext4Reader::open`: the stream starts at
position 0 with the inode's combined size. -/
theorem openFile_spec (r : Ext4Reader) (fuel : Nat) (p : List (List Nat))
    (f0 : Ext4FileReader) (h : r.openFile fuel p = Except.ok f0) :
    f0.position = 0 ∧ f0.size = f0.inode.size := by
  unfold Ext4Reader.openFile at h
  cases hfind : r.find_inode_by_path fuel p with
  | error e => rw [hfind] at h; simp [Bind.bind, Except.bind] at h
  | ok n =>
    rw [hfind] at h
    simp only [Bind.bind, Except.bind] at h
    cases hread : r.read_inode n with
    | error e => rw [hread] at h; simp at h
    | ok inode =>
      rw [hread] at h
      dsimp only at h
      split at h
      · exact Except.noConfusion h
      · injection h with h
        subst h
        exact ⟨rfl, rfl⟩

/-- A single stream read, on a block-covered file, returns exactly the slice
of the concatenated block bytes at the cursor. -/
theorem fileRead_formula (r : Ext4Reader) (fuel : Nat) (f : Ext4FileReader)
    (len : Nat) (blocks : List Nat)
    (hbl : r.fileBlocks fuel f.inode = Except.ok blocks)
    (hrd : ∀ b ∈ blocks, b * r.block_size + r.block_size ≤ r.reader.size)
    (hbs : 0 < r.block_size)
    (hsize : f.size = f.inode.size) :
    ∃ f', Ext4FileReader.read r fuel f len =
      Except.ok ((((concatBlockBytes r blocks).drop f.position).take
        (min len (f.size - f.position))), f') := by
  unfold Ext4FileReader.read
  by_cases hpos : f.position ≥ f.size
  · rw [if_pos hpos]
    refine ⟨f, ?_⟩
    rw [show min len (f.size - f.position) = 0 by omega]
    rw [List.take_zero]
  · rw [if_neg hpos]
    dsimp only
    by_cases hto : min len (f.size - f.position) = 0
    · rw [if_pos hto]
      refine ⟨f, ?_⟩
      rw [hto, List.take_zero]
    · rw [if_neg hto]
      rw [read_file_data_range_eq r fuel f.inode f.position
        (min len (f.size - f.position)) blocks hbl hrd hbs (by omega)]
      dsimp only
      rw [show min (min len (f.size - f.position)) (f.inode.size - f.position) =
        min len (f.size - f.position) by omega]
      exact ⟨_, rfl⟩

/-- Claim C8.  On a regular file all of whose data blocks lie inside the
backing store: opening, seeking to `Start(k)` with `k ≤ size`, then reading
up to `n` bytes returns exactly the bytes from position `k` onward of a
single `k + n`-byte read from a fresh open — i.e. the bytes at positions
`k .. k + min(n, size − k)` of the file. -/
theorem C8_seek_read_roundtrip (r : Ext4Reader) (fuel : Nat)
    (p : List (List Nat)) (f0 : Ext4FileReader) (k n : Nat) (blocks : List Nat)
    (hopen : r.openFile fuel p = Except.ok f0)
    (hbl : r.fileBlocks fuel f0.inode = Except.ok blocks)
    (hrd : ∀ b ∈ blocks, b * r.block_size + r.block_size ≤ r.reader.size)
    (hbs : 0 < r.block_size)
    (hk : k ≤ f0.size) :
    ∃ f1 bytes1 f2 bytes0 f3,
      f0.seek (SeekFrom.start k) = Except.ok (k, f1) ∧
      Ext4FileReader.read r fuel f1 n = Except.ok (bytes1, f2) ∧
      Ext4FileReader.read r fuel f0 (k + n) = Except.ok (bytes0, f3) ∧
      bytes1 = bytes0.drop k := by
  obtain ⟨hpos0, hsize⟩ := openFile_spec r fuel p f0 hopen
  have hseek : f0.seek (SeekFrom.start k) =
      Except.ok (k, { f0 with position := k }) := by
    unfold Ext4FileReader.seek
    dsimp only
    rw [if_neg (by omega)]
  obtain ⟨f2, hread1⟩ := fileRead_formula r fuel { f0 with position := k } n
    blocks hbl hrd hbs hsize
  obtain ⟨f3, hread0⟩ := fileRead_formula r fuel f0 (k + n) blocks hbl hrd hbs
    hsize
  refine ⟨{ f0 with position := k }, _, f2, _, f3, hseek, hread1, hread0, ?_⟩
  rw [hpos0, List.drop_zero]
  rw [List.drop_take]
  rw [show min (k + n) (f0.size - 0) - k = min n (f0.size - k) by omega]

unseal List.merge List.mergeSort in
/-- Witness for C8 on image A's file `/a` (8 bytes, one data block inside the
backing store): seek to 3 and read 4. -/
theorem C8_witness :
    rdrA.openFile 1 [[97]] = Except.ok ⟨inodeA12, 0, 8⟩ ∧
    (∃ f1 bytes1 f2 bytes0 f3,
      Ext4FileReader.seek ⟨inodeA12, 0, 8⟩ (SeekFrom.start 3) =
        Except.ok (3, f1) ∧
      Ext4FileReader.read rdrA 1 f1 4 = Except.ok (bytes1, f2) ∧
      Ext4FileReader.read rdrA 1 ⟨inodeA12, 0, 8⟩ (3 + 4) =
        Except.ok (bytes0, f3) ∧
      bytes1 = bytes0.drop 3) :=
  ⟨by decide,
    C8_seek_read_roundtrip rdrA 1 [[97]] ⟨inodeA12, 0, 8⟩ 3 4 [6]
      (by decide) (by decide) (by decide) (by decide) (by decide)⟩
